import Mathlib

/-!
Verification of the Travell-Price-Planner-Predictor repository (TripGenius).

The repository is a browser trip-planning form (`src/app/page.tsx`) around a
single server action (`src/app/actions.ts`) that calls a schema-validated
generative flow (`src/ai/flows/generate-personalized-itinerary.ts`).

This file shallowly embeds the computational content of that code:
  * strings are `List Char` (JavaScript string values, one entry per code
    point; every code point the code can round-trip is below 0x10000, where
    code points and UTF-16 code units coincide);
  * JavaScript values reaching `JSON.parse` / `JSON.stringify` are the
    inductive `JsVal`; numbers are modelled as integers (the only numbers the
    form produces are whole day/traveler counts; fractional literals are left
    outside the model);
  * `Date` values are modelled by their UTC broken-down components
    (`DateRec`); `Date.prototype.toISOString` prints them and `new Date` on
    the printed form reads them back, which is the only Date behaviour the
    share/persistence paths rely on;
  * the browser built-ins `btoa`/`atob` are embedded directly (Latin-1
    check, base64 alphabet, padding);
  * effects (the plan-loading `useEffect`, the submit handler with its
    loading flag, toasts and `localStorage` writes) become pure functions or
    a step function over an explicit UI state.
-/

/-! ## Interest toggling (`toggleInterest` in `src/app/page.tsx`)

`toggleInterest` does
`split(', ').filter(Boolean)`, membership test, filter-out or append,
then `join(', ')`.  `splitSep`/`joinSep` model JavaScript
`String.prototype.split(", ")` / `Array.prototype.join(", ")` on the
two-character separator. -/

/-- JavaScript `s.split(", ")`: left-to-right scan for non-overlapping
occurrences of the two-character separator, accumulating the current piece
(in reverse) in `acc`. -/
def splitSepAux : List Char → List Char → List (List Char)
  | [], acc => [acc.reverse]
  | [c], acc => [(c :: acc).reverse]
  | c1 :: c2 :: rest, acc =>
    if c1 = ',' && c2 = ' ' then acc.reverse :: splitSepAux rest []
    else splitSepAux (c2 :: rest) (c1 :: acc)

/-- JavaScript `s.split(", ")`. -/
def splitSep (s : List Char) : List (List Char) := splitSepAux s []

/-- JavaScript `parts.join(", ")`. -/
def joinSep : List (List Char) → List Char
  | [] => []
  | [p] => p
  | p :: ps => p ++ ',' :: ' ' :: joinSep ps

/-- `true` when the string does not contain the separator `", "` as a
substring. -/
def sepFree : List Char → Bool
  | [] => true
  | [_] => true
  | c1 :: c2 :: rest => !(c1 = ',' && c2 = ' ') && sepFree (c2 :: rest)

/-- `toggleInterest` from `src/app/page.tsx` (lines 160-166), acting on the
current value of the `interests` form field. -/
def toggleInterest (interest : List Char) (current : List Char) : List Char :=
  let currentInterests := (splitSep current).filter (fun s => !s.isEmpty)
  let newInterests :=
    if currentInterests.contains interest then
      currentInterests.filter (fun s => s != interest)
    else
      currentInterests ++ [interest]
  joinSep newInterests

/-- The interest badges rendered by the form (`INTERESTS`,
`src/app/page.tsx` lines 42-45). -/
def INTERESTS : List (List Char) :=
  ["Beaches".toList, "Food".toList, "Shopping".toList, "History".toList,
   "Culture".toList, "Adventure".toList, "Nature".toList, "Nightlife".toList,
   "Religious".toList, "Photography".toList]

theorem splitSepAux_sepFree (p : List Char) :
    ∀ acc, sepFree p = true → splitSepAux p acc = [acc.reverse ++ p] := by
  induction p with
  | nil => intro acc _; simp [splitSepAux]
  | cons c1 p ih =>
    intro acc hfree
    cases p with
    | nil => simp [splitSepAux]
    | cons c2 p' =>
      have hparts : (¬c1 = ',' ∨ ¬c2 = ' ') ∧ sepFree (c2 :: p') = true := by
        have := hfree; simpa [sepFree, Decidable.not_and_iff_or_not] using this
      have hcond : (c1 = ',' && c2 = ' ') = false := by
        rcases hparts.1 with h | h <;> simp [h]
      simp only [splitSepAux, hcond, Bool.false_eq_true, if_false]
      rw [ih (c1 :: acc) hparts.2]
      simp

theorem splitSepAux_append_sep (p : List Char) :
    ∀ acc rest, sepFree p = true →
      splitSepAux (p ++ ',' :: ' ' :: rest) acc =
        (acc.reverse ++ p) :: splitSepAux rest [] := by
  induction p with
  | nil =>
    intro acc rest _
    simp [splitSepAux]
  | cons c1 p ih =>
    intro acc rest hfree
    cases p with
    | nil =>
      have hcond : (c1 = ',' && (',' : Char) = ' ') = false := by simp
      simp only [List.cons_append, List.nil_append, splitSepAux, hcond,
        Bool.false_eq_true, if_false]
      simp [splitSepAux]
    | cons c2 p' =>
      have hparts : (¬c1 = ',' ∨ ¬c2 = ' ') ∧ sepFree (c2 :: p') = true := by
        have := hfree; simpa [sepFree, Decidable.not_and_iff_or_not] using this
      have hcond : (c1 = ',' && c2 = ' ') = false := by
        rcases hparts.1 with h | h <;> simp [h]
      simp only [List.cons_append, List.append_eq, splitSepAux, hcond,
        Bool.false_eq_true, if_false]
      have := ih (c1 :: acc) rest hparts.2
      simp only [List.cons_append, List.append_eq] at this
      rw [this]
      simp

/-- Splitting undoes joining when every piece avoids the separator. -/
theorem splitSep_joinSep (ps : List (List Char)) (hne : ps ≠ [])
    (hfree : ∀ p ∈ ps, sepFree p = true) : splitSep (joinSep ps) = ps := by
  induction ps with
  | nil => exact absurd rfl hne
  | cons p ps ih =>
    cases ps with
    | nil =>
      simp only [joinSep, splitSep]
      rw [splitSepAux_sepFree p [] (hfree p (by simp))]
      simp
    | cons q qs =>
      simp only [joinSep, splitSep]
      rw [splitSepAux_append_sep p [] (joinSep (q :: qs)) (hfree p (by simp))]
      simp only [List.reverse_nil, List.nil_append]
      have := ih (by simp) (fun r hr => hfree r (by simp [hr]))
      simp only [splitSep] at this
      rw [this]

/-! ## Decimal digits

Printing and reading the decimal numerals that appear in the serialized
preferences record: `JSON.stringify` on the whole-number `days`/`travelers`
values and the fixed-width fields of `Date.prototype.toISOString`. -/

def digitChar (n : Nat) : Char := Char.ofNat (48 + n)

def digitVal (c : Char) : Nat := c.toNat - 48

def isDigitChar (c : Char) : Bool := '0' ≤ c && c ≤ '9'

/-- Zero-padded fixed-width decimal printing (the `YYYY`, `MM`, ...
fields of `toISOString`). -/
def padDigits : Nat → Nat → List Char
  | 0, _ => []
  | k+1, n => padDigits k (n / 10) ++ [digitChar (n % 10)]

def natToCharsAux : Nat → Nat → List Char
  | 0, _ => []
  | fuel+1, n =>
    if n < 10 then [digitChar n]
    else natToCharsAux fuel (n / 10) ++ [digitChar (n % 10)]

/-- JavaScript number-to-string on a non-negative integer (what
`JSON.stringify` emits for the `days` and `travelers` fields). -/
def natToChars (n : Nat) : List Char := natToCharsAux (n + 1) n

/-- The numeric value of a digit string, folded left to right onto `acc`. -/
def digitsVal (ds : List Char) (acc : Nat) : Nat :=
  ds.foldl (fun a c => a * 10 + digitVal c) acc

/-- Read exactly `k` digit characters. -/
def readFixedAux : Nat → Nat → List Char → Option (Nat × List Char)
  | 0, acc, s => some (acc, s)
  | _+1, _, [] => none
  | k+1, acc, c :: r =>
    if isDigitChar c then readFixedAux k (acc * 10 + digitVal c) r else none

theorem digitChar_isDigit {d : Nat} (h : d < 10) : isDigitChar (digitChar d) = true := by
  interval_cases d <;> decide

theorem digitVal_digitChar {d : Nat} (h : d < 10) : digitVal (digitChar d) = d := by
  interval_cases d <;> decide

theorem digitsVal_append_singleton (ds : List Char) (c : Char) (acc : Nat) :
    digitsVal (ds ++ [c]) acc = digitsVal ds acc * 10 + digitVal c := by
  simp [digitsVal, List.foldl_append]

theorem padDigits_length (k n : Nat) : (padDigits k n).length = k := by
  induction k generalizing n with
  | zero => rfl
  | succ k ih => simp [padDigits, ih]

theorem padDigits_digits (k n : Nat) : ∀ c ∈ padDigits k n, isDigitChar c = true := by
  induction k generalizing n with
  | zero => simp [padDigits]
  | succ k ih =>
    intro c hc
    simp only [padDigits, List.mem_append, List.mem_singleton] at hc
    rcases hc with hc | hc
    · exact ih (n / 10) c hc
    · subst hc; exact digitChar_isDigit (Nat.mod_lt _ (by norm_num))

theorem digitsVal_padDigits (k : Nat) :
    ∀ n acc, n < 10 ^ k → digitsVal (padDigits k n) acc = acc * 10 ^ k + n := by
  induction k with
  | zero =>
    intro n acc h
    interval_cases n
    simp [padDigits, digitsVal]
  | succ k ih =>
    intro n acc h
    have hdiv : n / 10 < 10 ^ k := by
      apply Nat.div_lt_of_lt_mul
      calc n < 10 ^ (k + 1) := h
        _ = 10 * 10 ^ k := by ring
    rw [padDigits, digitsVal_append_singleton,
      ih (n / 10) acc hdiv, digitVal_digitChar (Nat.mod_lt _ (by norm_num))]
    have hnm := Nat.div_add_mod n 10
    calc (acc * 10 ^ k + n / 10) * 10 + n % 10
        = acc * (10 ^ k * 10) + (10 * (n / 10) + n % 10) := by ring
      _ = acc * 10 ^ (k + 1) + n := by rw [hnm]; ring

theorem natToCharsAux_spec (fuel : Nat) :
    ∀ n, n < fuel →
      (∀ c ∈ natToCharsAux fuel n, isDigitChar c = true) ∧
      natToCharsAux fuel n ≠ [] ∧
      ∀ acc, digitsVal (natToCharsAux fuel n) acc =
        acc * 10 ^ (natToCharsAux fuel n).length + n := by
  induction fuel with
  | zero => intro n h; omega
  | succ fuel ih =>
    intro n h
    by_cases hn : n < 10
    · refine ⟨?_, ?_, ?_⟩
      · intro c hc
        simp only [natToCharsAux, if_pos hn, List.mem_singleton] at hc
        subst hc; exact digitChar_isDigit hn
      · simp [natToCharsAux, if_pos hn]
      · intro acc
        simp [natToCharsAux, if_pos hn, digitsVal, digitVal_digitChar hn]
    · have hdiv : n / 10 < fuel := by
        have h1 : n / 10 < n := Nat.div_lt_self (by omega) (by norm_num)
        omega
      obtain ⟨ihd, ihne, ihval⟩ := ih (n / 10) hdiv
      refine ⟨?_, ?_, ?_⟩
      · intro c hc
        simp only [natToCharsAux, if_neg hn, List.mem_append, List.mem_singleton] at hc
        rcases hc with hc | hc
        · exact ihd c hc
        · subst hc; exact digitChar_isDigit (Nat.mod_lt _ (by norm_num))
      · simp [natToCharsAux, if_neg hn]
      · intro acc
        simp only [natToCharsAux, if_neg hn]
        rw [digitsVal_append_singleton, ihval acc,
          digitVal_digitChar (Nat.mod_lt _ (by norm_num))]
        have hnm := Nat.div_add_mod n 10
        simp only [List.length_append, List.length_singleton]
        calc (acc * 10 ^ (natToCharsAux fuel (n / 10)).length + n / 10) * 10 + n % 10
            = acc * (10 ^ (natToCharsAux fuel (n / 10)).length * 10)
              + (10 * (n / 10) + n % 10) := by ring
          _ = acc * 10 ^ ((natToCharsAux fuel (n / 10)).length + 1) + n := by
              rw [hnm]; ring

theorem natToChars_digits (n : Nat) : ∀ c ∈ natToChars n, isDigitChar c = true :=
  (natToCharsAux_spec (n + 1) n (by omega)).1

theorem natToChars_ne_nil (n : Nat) : natToChars n ≠ [] :=
  (natToCharsAux_spec (n + 1) n (by omega)).2.1

theorem digitsVal_natToChars (n : Nat) : digitsVal (natToChars n) 0 = n := by
  have := (natToCharsAux_spec (n + 1) n (by omega)).2.2 0
  simpa [natToChars] using this

theorem readFixedAux_spec (ds : List Char) :
    ∀ k acc rest, ds.length = k → (∀ c ∈ ds, isDigitChar c = true) →
      readFixedAux k acc (ds ++ rest) = some (digitsVal ds acc, rest) := by
  induction ds with
  | nil =>
    intro k acc rest hk _
    subst hk; simp [readFixedAux, digitsVal]
  | cons c cs ih =>
    intro k acc rest hk hd
    subst hk
    simp only [List.length_cons, List.cons_append, readFixedAux,
      hd c (by simp), if_true]
    have := ih cs.length (acc * 10 + digitVal c) rest rfl (fun x hx => hd x (by simp [hx]))
    simp only [List.append_eq] at this ⊢
    rw [this]
    rfl

theorem takeWhile_append_of (p : Char → Bool) (xs ys : List Char)
    (h : ∀ c ∈ xs, p c = true) (hy : ∀ y ∈ ys.head?, p y = false) :
    (xs ++ ys).takeWhile p = xs ∧ (xs ++ ys).dropWhile p = ys := by
  induction xs with
  | nil =>
    cases ys with
    | nil => simp
    | cons y ys =>
      have : p y = false := hy y (by simp)
      simp [List.takeWhile, List.dropWhile, this]
  | cons c cs ih =>
    have hc : p c = true := h c (by simp)
    have := ih (fun x hx => h x (by simp [hx]))
    simp [List.takeWhile, List.dropWhile, hc, this.1, this.2]

/-! ## Dates

The form's `startDate` is a JavaScript `Date`.  On the share/persistence
paths the only operations applied to it are `JSON.stringify` (which calls
`Date.prototype.toJSON`, i.e. `toISOString`) and `new Date(isoString)`
(`src/app/page.tsx` line 121).  A `Date` value is therefore modelled by its
UTC broken-down components. -/

structure DateRec where
  year : Nat
  month : Nat
  day : Nat
  hour : Nat
  minute : Nat
  second : Nat
  ms : Nat
deriving DecidableEq

/-- Component bounds under which `toISOString` prints each field in its
fixed width (every real calendar date satisfies them). -/
def DateRec.printable (d : DateRec) : Prop :=
  d.year < 10000 ∧ d.month < 100 ∧ d.day < 100 ∧ d.hour < 100 ∧
    d.minute < 100 ∧ d.second < 100 ∧ d.ms < 1000

instance (d : DateRec) : Decidable d.printable := by
  unfold DateRec.printable; infer_instance

/-- `Date.prototype.toISOString`: `YYYY-MM-DDTHH:mm:ss.sssZ`. -/
def isoOfDate (d : DateRec) : List Char :=
  padDigits 4 d.year ++ '-' :: (padDigits 2 d.month ++ '-' :: (padDigits 2 d.day
    ++ 'T' :: (padDigits 2 d.hour ++ ':' :: (padDigits 2 d.minute
    ++ ':' :: (padDigits 2 d.second ++ '.' :: (padDigits 3 d.ms ++ ['Z']))))))

def expectChar (c : Char) : List Char → Option (List Char)
  | [] => none
  | x :: r => if x = c then some r else none

/-- `new Date(s)` on a date-time string of the exact ISO shape emitted by
`toISOString` (the only shape the decode paths feed it). -/
def parseIsoDate (s : List Char) : Option DateRec :=
  match readFixedAux 4 0 s with
  | some (y, s1) =>
    (match expectChar '-' s1 with
     | some s2 =>
       (match readFixedAux 2 0 s2 with
        | some (mo, s3) =>
          (match expectChar '-' s3 with
           | some s4 =>
             (match readFixedAux 2 0 s4 with
              | some (dd, s5) =>
                (match expectChar 'T' s5 with
                 | some s6 =>
                   (match readFixedAux 2 0 s6 with
                    | some (hh, s7) =>
                      (match expectChar ':' s7 with
                       | some s8 =>
                         (match readFixedAux 2 0 s8 with
                          | some (mi, s9) =>
                            (match expectChar ':' s9 with
                             | some s10 =>
                               (match readFixedAux 2 0 s10 with
                                | some (sec, s11) =>
                                  (match expectChar '.' s11 with
                                   | some s12 =>
                                     (match readFixedAux 3 0 s12 with
                                      | some (msv, s13) =>
                                        (match expectChar 'Z' s13 with
                                         | some [] => some (DateRec.mk y mo dd hh mi sec msv)
                                         | _ => none)
                                      | none => none)
                                   | none => none)
                                | none => none)
                             | none => none)
                          | none => none)
                       | none => none)
                    | none => none)
                 | none => none)
              | none => none)
           | none => none)
        | none => none)
     | none => none)
  | none => none

theorem expectChar_cons (c : Char) (r : List Char) : expectChar c (c :: r) = some r := by
  simp [expectChar]

theorem readFixed_padDigits (k v : Nat) (rest : List Char) (h : v < 10 ^ k) :
    readFixedAux k 0 (padDigits k v ++ rest) = some (v, rest) := by
  rw [readFixedAux_spec _ k 0 rest (padDigits_length k v) (padDigits_digits k v),
    digitsVal_padDigits k v 0 h]
  simp

theorem parseIsoDate_isoOfDate (d : DateRec) (h : d.printable) :
    parseIsoDate (isoOfDate d) = some d := by
  obtain ⟨h1, h2, h3, h4, h5, h6, h7⟩ := h
  have r1 : ∀ rest, readFixedAux 4 0 (padDigits 4 d.year ++ rest) = some (d.year, rest) :=
    fun rest => readFixed_padDigits 4 d.year rest (by norm_num; omega)
  have r2 : ∀ rest, readFixedAux 2 0 (padDigits 2 d.month ++ rest) = some (d.month, rest) :=
    fun rest => readFixed_padDigits 2 d.month rest (by norm_num; omega)
  have r3 : ∀ rest, readFixedAux 2 0 (padDigits 2 d.day ++ rest) = some (d.day, rest) :=
    fun rest => readFixed_padDigits 2 d.day rest (by norm_num; omega)
  have r4 : ∀ rest, readFixedAux 2 0 (padDigits 2 d.hour ++ rest) = some (d.hour, rest) :=
    fun rest => readFixed_padDigits 2 d.hour rest (by norm_num; omega)
  have r5 : ∀ rest, readFixedAux 2 0 (padDigits 2 d.minute ++ rest) = some (d.minute, rest) :=
    fun rest => readFixed_padDigits 2 d.minute rest (by norm_num; omega)
  have r6 : ∀ rest, readFixedAux 2 0 (padDigits 2 d.second ++ rest) = some (d.second, rest) :=
    fun rest => readFixed_padDigits 2 d.second rest (by norm_num; omega)
  have r7 : ∀ rest, readFixedAux 3 0 (padDigits 3 d.ms ++ rest) = some (d.ms, rest) :=
    fun rest => readFixed_padDigits 3 d.ms rest (by norm_num; omega)
  simp only [parseIsoDate, isoOfDate, r1, r2, r3, r4, r5, r6, r7, expectChar_cons]

/-! ## JSON string escaping

`JSON.stringify` escapes `"`, `\\`, the named control characters, and the
remaining characters below U+0020 (as `\u00XX`); `JSON.parse` reverses
this and also accepts the other standard escapes. -/

def escHexChar (n : Nat) : Char := if n < 10 then digitChar n else Char.ofNat (87 + n)

def hexDigitVal (c : Char) : Option Nat :=
  if '0' ≤ c ∧ c ≤ '9' then some (c.toNat - 48)
  else if 'a' ≤ c ∧ c ≤ 'f' then some (c.toNat - 87)
  else if 'A' ≤ c ∧ c ≤ 'F' then some (c.toNat - 55)
  else none

/-- The escape sequence `JSON.stringify` emits for one character of a
string value (or the character itself when no escape is needed). -/
def escapeChar (c : Char) : List Char :=
  if c = '"' then ['\\', '"']
  else if c = '\\' then ['\\', '\\']
  else if c = '\x08' then ['\\', 'b']
  else if c = '\x09' then ['\\', 't']
  else if c = '\x0a' then ['\\', 'n']
  else if c = '\x0c' then ['\\', 'f']
  else if c = '\x0d' then ['\\', 'r']
  else if c.toNat < 32 then
    ['\\', 'u', '0', '0', escHexChar (c.toNat / 16), escHexChar (c.toNat % 16)]
  else [c]

def escapeStr : List Char → List Char
  | [] => []
  | c :: rest => escapeChar c ++ escapeStr rest

/-- A serialized JSON string literal, quotes included. -/
def quoteStr (s : List Char) : List Char := '"' :: (escapeStr s ++ ['"'])

def unescapeChar (e : Char) : Option Char :=
  if e = '"' then some '"'
  else if e = '\\' then some '\\'
  else if e = '/' then some '/'
  else if e = 'b' then some '\x08'
  else if e = 't' then some '\x09'
  else if e = 'n' then some '\x0a'
  else if e = 'f' then some '\x0c'
  else if e = 'r' then some '\x0d'
  else none

/-- The body of a JSON string literal, after the opening quote: reads
until the closing quote, undoing escapes, and returns the decoded string
together with the input after the closing quote. -/
def parseStringBody : List Char → Option (List Char × List Char)
  | [] => none
  | c :: rest =>
    if c = '"' then some ([], rest)
    else if c = '\\' then
      (match rest with
       | [] => none
       | e :: rest2 =>
         if e = 'u' then
           (match rest2 with
            | h1 :: h2 :: h3 :: h4 :: rest3 =>
              (match hexDigitVal h1, hexDigitVal h2, hexDigitVal h3, hexDigitVal h4 with
               | some v1, some v2, some v3, some v4 =>
                 (match parseStringBody rest3 with
                  | some (s, r) =>
                    some (Char.ofNat (((v1 * 16 + v2) * 16 + v3) * 16 + v4) :: s, r)
                  | none => none)
               | _, _, _, _ => none)
            | _ => none)
         else
           (match unescapeChar e with
            | some u =>
              (match parseStringBody rest2 with
               | some (s, r) => some (u :: s, r)
               | none => none)
            | none => none))
    else if c.toNat < 32 then none
    else
      (match parseStringBody rest with
       | some (s, r) => some (c :: s, r)
       | none => none)

theorem hexDigitVal_escHexChar : ∀ m, m < 16 → hexDigitVal (escHexChar m) = some m := by
  decide

theorem parseStringBody_escape (s : List Char) :
    ∀ rest, parseStringBody (escapeStr s ++ '"' :: rest) = some (s, rest) := by
  induction s with
  | nil =>
    intro rest
    rw [show escapeStr [] ++ '"' :: rest = '"' :: rest by simp [escapeStr]]
    rw [parseStringBody.eq_def]
    simp
  | cons c cs ih =>
    intro rest
    simp only [escapeStr, List.append_assoc]
    by_cases hq : c = '"'
    · subst hq
      simp only [escapeChar]
      norm_num
      rw [parseStringBody.eq_def]
      simp [unescapeChar, ih]
    by_cases hb : c = '\\'
    · subst hb
      simp only [escapeChar]
      norm_num
      rw [parseStringBody.eq_def]
      simp [unescapeChar, ih]
    by_cases h08 : c = '\x08'
    · subst h08
      simp only [escapeChar]
      norm_num
      rw [parseStringBody.eq_def]
      simp [unescapeChar, ih]
    by_cases h09 : c = '\x09'
    · subst h09
      simp only [escapeChar]
      norm_num
      rw [parseStringBody.eq_def]
      simp [unescapeChar, ih]
    by_cases h0a : c = '\x0a'
    · subst h0a
      simp only [escapeChar]
      norm_num
      rw [parseStringBody.eq_def]
      simp [unescapeChar, ih]
    by_cases h0c : c = '\x0c'
    · subst h0c
      simp only [escapeChar]
      norm_num
      rw [parseStringBody.eq_def]
      simp [unescapeChar, ih]
    by_cases h0d : c = '\x0d'
    · subst h0d
      simp only [escapeChar]
      norm_num
      rw [parseStringBody.eq_def]
      simp [unescapeChar, ih]
    by_cases hlo : c.toNat < 32
    · have hhi := hexDigitVal_escHexChar (c.toNat / 16) (by omega)
      have hlo2 := hexDigitVal_escHexChar (c.toNat % 16) (by omega)
      have hz : hexDigitVal '0' = some 0 := rfl
      simp only [escapeChar, if_neg hq, if_neg hb, if_neg h08, if_neg h09, if_neg h0a,
        if_neg h0c, if_neg h0d, if_pos hlo, List.cons_append, List.nil_append]
      rw [parseStringBody.eq_def]
      simp only [hz, hhi, hlo2, ih]
      norm_num
      rw [if_neg (by decide : ¬('\\' : Char) = '"')]
      rw [show c.toNat / 16 * 16 + c.toNat % 16 = c.toNat by omega, Char.ofNat_toNat]
    · simp only [escapeChar, if_neg hq, if_neg hb, if_neg h08, if_neg h09, if_neg h0a,
        if_neg h0c, if_neg h0d, if_neg hlo, List.cons_append, List.nil_append]
      rw [parseStringBody.eq_def]
      simp only [if_neg hq, if_neg hb, if_neg hlo, ih]

/-! ## JavaScript values and `JSON.parse`

`JsVal` covers the JavaScript values that flow through the decode paths:
everything `JSON.parse` can produce, plus `date arg` standing for the
object produced by `new Date(arg)` on line 121 of `src/app/page.tsx`.
Numbers are modelled as integers; fractional and exponent literals are
outside the model and are parsed as failures. -/

inductive JsVal where
  | null : JsVal
  | bool (b : Bool) : JsVal
  | num (n : Int) : JsVal
  | str (s : List Char) : JsVal
  | arr (elems : List JsVal) : JsVal
  | obj (fields : List (List Char × JsVal)) : JsVal
  | date (arg : JsVal) : JsVal

/-- Property write `o[k] = v` on a JavaScript object: replaces in place if
the key exists (keeping its position), otherwise appends. -/
def setField : List (List Char × JsVal) → List Char → JsVal → List (List Char × JsVal)
  | [], k, v => [(k, v)]
  | (k1, v1) :: rest, k, v =>
    if k1 = k then (k1, v) :: rest else (k1, v1) :: setField rest k v

/-- Property read `o[k]` on a JavaScript object (`none` = `undefined`). -/
def assocGet : List (List Char × JsVal) → List Char → Option JsVal
  | [], _ => none
  | (k1, v1) :: rest, k => if k1 = k then some v1 else assocGet rest k

/-- Property read on an arbitrary value; primitives have no own
properties of interest, so anything but an object reads `undefined`. -/
def getField (j : JsVal) (k : List Char) : Option JsVal :=
  match j with
  | JsVal.obj kvs => assocGet kvs k
  | _ => none

/-- JavaScript truthiness of a value. -/
def jsTruthy : JsVal → Bool
  | JsVal.null => false
  | JsVal.bool b => b
  | JsVal.num n => n != 0
  | JsVal.str s => !s.isEmpty
  | JsVal.arr _ => true
  | JsVal.obj _ => true
  | JsVal.date _ => true

/-- Truthiness of a possibly-`undefined` value. -/
def jsTruthyOpt : Option JsVal → Bool
  | none => false
  | some v => jsTruthy v

def isJsonWs (c : Char) : Bool := c = ' ' || c = '\x09' || c = '\x0a' || c = '\x0d'

def skipWs (s : List Char) : List Char := s.dropWhile isJsonWs

/-- An unsigned JSON integer literal; a following `.`, `e` or `E` would
denote a fractional/exponent literal, which the model does not represent. -/
def parseNumToken (s : List Char) : Option (Nat × List Char) :=
  let ds := s.takeWhile isDigitChar
  let rest := s.dropWhile isDigitChar
  if ds.isEmpty then none
  else if rest.head? = some '.' || rest.head? = some 'e' || rest.head? = some 'E' then none
  else some (digitsVal ds 0, rest)

/-- The parsing modes of the recursive-descent `JSON.parse` embedding:
a value, the members of an object (accumulated so far), or the elements
of an array. -/
inductive PMode where
  | value : PMode
  | members (acc : List (List Char × JsVal)) : PMode
  | elems (acc : List JsVal) : PMode

/-- Recursive-descent JSON parser.  `fuel` only bounds the recursion
depth; every recursive call consumes input, so the initial budget used by
`jsonParse` is never exhausted. -/
def parseCore : Nat → PMode → List Char → Option (JsVal × List Char)
  | 0, _, _ => none
  | fuel+1, PMode.value, s =>
    (match skipWs s with
     | [] => none
     | c :: rest =>
       if c = '\x7b' then
         (match skipWs rest with
          | [] => none
          | c2 :: r2 =>
            if c2 = '\x7d' then some (JsVal.obj [], r2)
            else parseCore fuel (PMode.members []) (c2 :: r2))
       else if c = '[' then
         (match skipWs rest with
          | [] => none
          | c2 :: r2 =>
            if c2 = ']' then some (JsVal.arr [], r2)
            else parseCore fuel (PMode.elems []) (c2 :: r2))
       else if c = '"' then
         (match parseStringBody rest with
          | some (sv, r) => some (JsVal.str sv, r)
          | none => none)
       else if c = '-' then
         (match parseNumToken rest with
          | some (n, r) => some (JsVal.num (-(n : Int)), r)
          | none => none)
       else if c = 't' then
         (match rest with
          | 'r' :: 'u' :: 'e' :: r => some (JsVal.bool true, r)
          | _ => none)
       else if c = 'f' then
         (match rest with
          | 'a' :: 'l' :: 's' :: 'e' :: r => some (JsVal.bool false, r)
          | _ => none)
       else if c = 'n' then
         (match rest with
          | 'u' :: 'l' :: 'l' :: r => some (JsVal.null, r)
          | _ => none)
       else
         (match parseNumToken (c :: rest) with
          | some (n, r) => some (JsVal.num (n : Int), r)
          | none => none))
  | fuel+1, PMode.members acc, s =>
    (match skipWs s with
     | [] => none
     | c :: rest =>
       if c = '"' then
         (match parseStringBody rest with
          | some (key, r1) =>
            (match skipWs r1 with
             | [] => none
             | c2 :: r2 =>
               if c2 = ':' then
                 (match parseCore fuel PMode.value r2 with
                  | some (v, r3) =>
                    (match skipWs r3 with
                     | [] => none
                     | c3 :: r4 =>
                       if c3 = ',' then parseCore fuel (PMode.members (setField acc key v)) r4
                       else if c3 = '\x7d' then some (JsVal.obj (setField acc key v), r4)
                       else none)
                  | none => none)
               else none)
          | none => none)
       else none)
  | fuel+1, PMode.elems acc, s =>
    (match parseCore fuel PMode.value s with
     | some (v, r1) =>
       (match skipWs r1 with
        | [] => none
        | c2 :: r2 =>
          if c2 = ',' then parseCore fuel (PMode.elems (acc ++ [v])) r2
          else if c2 = ']' then some (JsVal.arr (acc ++ [v]), r2)
          else none)
     | none => none)

/-- `JSON.parse`: parse one value, allow trailing whitespace, reject
trailing garbage; any failure models the thrown `SyntaxError`. -/
def jsonParse (s : List Char) : Option JsVal :=
  match parseCore (s.length + 2) PMode.value s with
  | some (v, rest) => if skipWs rest = [] then some v else none
  | none => none

/-! ## The preferences record and its serialization

`Prefs` is the validated form payload (`FormValues` in `src/app/page.tsx`):
`startDate` a `Date`, `days`/`travelers` the coerced whole numbers, the
select fields their enumerations, and the optional text fields the strings
the form holds (its `defaultValues` make them `''`, never `undefined`).
`stringifyPrefs` is `JSON.stringify` applied to such a record, with the
fields in their insertion order. -/

inductive Budget where
  | Low : Budget
  | Medium : Budget
  | Luxury : Budget
deriving DecidableEq

inductive Pace where
  | Relaxed : Pace
  | Balanced : Pace
  | Intense : Pace
deriving DecidableEq

def Budget.toChars : Budget → List Char
  | Budget.Low => "Low".toList
  | Budget.Medium => "Medium".toList
  | Budget.Luxury => "Luxury".toList

def Pace.toChars : Pace → List Char
  | Pace.Relaxed => "Relaxed".toList
  | Pace.Balanced => "Balanced".toList
  | Pace.Intense => "Intense".toList

structure Prefs where
  destination : List Char
  startDate : DateRec
  days : Nat
  budget : Budget
  travelers : Nat
  interests : List Char
  pace : Pace
  mustInclude : List Char
  avoid : List Char
  notes : List Char
deriving DecidableEq

def destinationKey : List Char := "destination".toList

def startDateKey : List Char := "startDate".toList

def daysKey : List Char := "days".toList

def budgetKey : List Char := "budget".toList

def travelersKey : List Char := "travelers".toList

def interestsKey : List Char := "interests".toList

def paceKey : List Char := "pace".toList

def mustIncludeKey : List Char := "mustInclude".toList

def avoidKey : List Char := "avoid".toList

def notesKey : List Char := "notes".toList

/-- `JSON.stringify` on a preferences record: braces, quoted escaped keys
and string values (the `Date` via `toISOString`), bare numerals for the
numeric fields. -/
def stringifyPrefs (p : Prefs) : List Char :=
  '\x7b' :: '"' :: (escapeStr destinationKey ++ '"' :: ':' :: '"' :: (escapeStr p.destination ++ '"' :: ',' :: '"' :: (escapeStr startDateKey ++ '"' :: ':' :: '"' :: (escapeStr (isoOfDate p.startDate) ++ '"' :: ',' :: '"' :: (escapeStr daysKey ++ '"' :: ':' :: (natToChars p.days ++ ',' :: '"' :: (escapeStr budgetKey ++ '"' :: ':' :: '"' :: (escapeStr p.budget.toChars ++ '"' :: ',' :: '"' :: (escapeStr travelersKey ++ '"' :: ':' :: (natToChars p.travelers ++ ',' :: '"' :: (escapeStr interestsKey ++ '"' :: ':' :: '"' :: (escapeStr p.interests ++ '"' :: ',' :: '"' :: (escapeStr paceKey ++ '"' :: ':' :: '"' :: (escapeStr p.pace.toChars ++ '"' :: ',' :: '"' :: (escapeStr mustIncludeKey ++ '"' :: ':' :: '"' :: (escapeStr p.mustInclude ++ '"' :: ',' :: '"' :: (escapeStr avoidKey ++ '"' :: ':' :: '"' :: (escapeStr p.avoid ++ '"' :: ',' :: '"' :: (escapeStr notesKey ++ '"' :: ':' :: '"' :: (escapeStr p.notes ++ '"' :: '\x7d' :: []))))))))))))))))))))

/-- The JavaScript object `JSON.parse` recovers from
`stringifyPrefs p`. -/
def prefsJson (p : Prefs) : JsVal :=
  JsVal.obj
    [(destinationKey, JsVal.str p.destination),
     (startDateKey, JsVal.str (isoOfDate p.startDate)),
     (daysKey, JsVal.num (p.days : Int)),
     (budgetKey, JsVal.str p.budget.toChars),
     (travelersKey, JsVal.num (p.travelers : Int)),
     (interestsKey, JsVal.str p.interests),
     (paceKey, JsVal.str p.pace.toChars),
     (mustIncludeKey, JsVal.str p.mustInclude),
     (avoidKey, JsVal.str p.avoid),
     (notesKey, JsVal.str p.notes)]

/-! ### Parsing the serialized record -/

theorem skipWs_cons_not (c : Char) (s : List Char) (h : isJsonWs c = false) :
    skipWs (c :: s) = c :: s := by
  simp [skipWs, List.dropWhile, h]

theorem isDigitChar_not_ws (c : Char) (h : isDigitChar c = true) : isJsonWs c = false := by
  by_cases h1 : c = ' '
  · subst h1; exact absurd h (by decide)
  by_cases h2 : c = '\x09'
  · subst h2; exact absurd h (by decide)
  by_cases h3 : c = '\x0a'
  · subst h3; exact absurd h (by decide)
  by_cases h4 : c = '\x0d'
  · subst h4; exact absurd h (by decide)
  simp [isJsonWs, h1, h2, h3, h4]

theorem isDigitChar_ne (c x : Char) (h : isDigitChar c = true)
    (hx : isDigitChar x = false) : ¬c = x := by
  intro he
  subst he
  simp [h] at hx

theorem parseNumToken_natToChars (n : Nat) (c : Char) (rest : List Char)
    (hc : isDigitChar c = false) (hdot : c ≠ '.') (he : c ≠ 'e') (hE : c ≠ 'E') :
    parseNumToken (natToChars n ++ c :: rest) = some (n, c :: rest) := by
  obtain ⟨htake, hdrop⟩ := takeWhile_append_of isDigitChar (natToChars n) (c :: rest)
    (natToChars_digits n) (by intro y hy; simp at hy; subst hy; exact hc)
  have hne := natToChars_ne_nil n
  simp only [parseNumToken, htake, hdrop]
  simp [List.isEmpty_iff, hne, List.head?, hdot, he, hE, digitsVal_natToChars]

theorem pv_str (fuel : Nat) (sv rest : List Char) :
    parseCore (fuel + 1) PMode.value ('"' :: (escapeStr sv ++ '"' :: rest)) =
      some (JsVal.str sv, rest) := by
  rw [parseCore.eq_def]
  simp only [skipWs_cons_not _ _ (by decide : isJsonWs '"' = false)]
  norm_num
  rw [parseStringBody_escape]
  rw [if_neg (by decide : ¬('"' : Char) = '\x7b'), if_neg (by decide : ¬('"' : Char) = '[')]

theorem pv_num (fuel : Nat) (n : Nat) (c : Char) (rest : List Char)
    (hc : isDigitChar c = false) (hdot : c ≠ '.') (he : c ≠ 'e') (hE : c ≠ 'E') :
    parseCore (fuel + 1) PMode.value (natToChars n ++ c :: rest) =
      some (JsVal.num (n : Int), c :: rest) := by
  obtain ⟨d, ds, hds⟩ : ∃ d ds, natToChars n = d :: ds := by
    cases h : natToChars n with
    | nil => exact absurd h (natToChars_ne_nil n)
    | cons d ds => exact ⟨d, ds, rfl⟩
  have hdall := natToChars_digits n
  have hd : isDigitChar d = true := by
    rw [hds] at hdall; exact hdall d (by simp)
  rw [hds, List.cons_append, parseCore.eq_def]
  simp only [skipWs_cons_not _ _ (isDigitChar_not_ws d hd)]
  rw [if_neg (isDigitChar_ne d '\x7b' hd (by decide))]
  rw [if_neg (isDigitChar_ne d '[' hd (by decide))]
  rw [if_neg (isDigitChar_ne d '"' hd (by decide))]
  rw [if_neg (isDigitChar_ne d '-' hd (by decide))]
  rw [if_neg (isDigitChar_ne d 't' hd (by decide))]
  rw [if_neg (isDigitChar_ne d 'f' hd (by decide))]
  rw [if_neg (isDigitChar_ne d 'n' hd (by decide))]
  have hp := parseNumToken_natToChars n c rest hc hdot he hE
  rw [hds, List.cons_append] at hp
  rw [hp]

theorem pv_obj_enter_quote (fuel : Nat) (s : List Char) :
    parseCore (fuel + 1) PMode.value ('\x7b' :: '"' :: s) =
      parseCore fuel (PMode.members []) ('"' :: s) := by
  rw [parseCore.eq_def]
  simp only [skipWs_cons_not _ _ (by decide : isJsonWs '\x7b' = false),
    skipWs_cons_not _ _ (by decide : isJsonWs '"' = false)]
  norm_num
  intro h
  exact absurd h (by decide)

theorem pm_step_str (fuel : Nat) (acc : List (List Char × JsVal)) (key sv rest : List Char) :
    parseCore (fuel + 2) (PMode.members acc)
      ('"' :: (escapeStr key ++ '"' :: ':' :: '"' :: (escapeStr sv ++ '"' :: ',' :: rest))) =
      parseCore (fuel + 1) (PMode.members (setField acc key (JsVal.str sv))) rest := by
  rw [show fuel + 2 = (fuel + 1) + 1 from rfl, parseCore.eq_def]
  simp only [skipWs_cons_not _ _ (by decide : isJsonWs '"' = false)]
  norm_num
  rw [parseStringBody_escape]
  simp only [skipWs_cons_not _ _ (by decide : isJsonWs ':' = false)]
  norm_num
  rw [pv_str fuel sv (',' :: rest)]
  simp only [skipWs_cons_not _ _ (by decide : isJsonWs ',' = false)]
  norm_num

theorem pm_last_str (fuel : Nat) (acc : List (List Char × JsVal)) (key sv rest : List Char) :
    parseCore (fuel + 2) (PMode.members acc)
      ('"' :: (escapeStr key ++ '"' :: ':' :: '"' :: (escapeStr sv ++ '"' :: '\x7d' :: rest))) =
      some (JsVal.obj (setField acc key (JsVal.str sv)), rest) := by
  rw [show fuel + 2 = (fuel + 1) + 1 from rfl, parseCore.eq_def]
  simp only [skipWs_cons_not _ _ (by decide : isJsonWs '"' = false)]
  norm_num
  rw [parseStringBody_escape]
  simp only [skipWs_cons_not _ _ (by decide : isJsonWs ':' = false)]
  norm_num
  rw [pv_str fuel sv ('\x7d' :: rest)]
  simp only [skipWs_cons_not _ _ (by decide : isJsonWs '\x7d' = false)]
  norm_num
  intro h
  exact absurd h (by decide)

theorem pm_step_num (fuel : Nat) (acc : List (List Char × JsVal)) (key : List Char)
    (n : Nat) (rest : List Char) :
    parseCore (fuel + 2) (PMode.members acc)
      ('"' :: (escapeStr key ++ '"' :: ':' :: (natToChars n ++ ',' :: rest))) =
      parseCore (fuel + 1) (PMode.members (setField acc key (JsVal.num (n : Int)))) rest := by
  rw [show fuel + 2 = (fuel + 1) + 1 from rfl, parseCore.eq_def]
  simp only [skipWs_cons_not _ _ (by decide : isJsonWs '"' = false)]
  norm_num
  rw [parseStringBody_escape]
  simp only [skipWs_cons_not _ _ (by decide : isJsonWs ':' = false)]
  norm_num
  rw [pv_num fuel n ',' rest (by decide) (by decide) (by decide) (by decide)]
  simp only [skipWs_cons_not _ _ (by decide : isJsonWs ',' = false)]
  norm_num

/-- Parsing the serialized preferences record, with any spare fuel. -/
theorem parse_stringifyPrefs (p : Prefs) (fuel : Nat) :
    parseCore (fuel + 12) PMode.value (stringifyPrefs p) = some (prefsJson p, []) := by
  simp only [stringifyPrefs]
  rw [show fuel + 12 = (fuel + 11) + 1 from rfl, pv_obj_enter_quote]
  rw [show fuel + 11 = (fuel + 9) + 2 from rfl, pm_step_str]
  rw [show fuel + 9 + 1 = (fuel + 8) + 2 from rfl, pm_step_str]
  rw [show fuel + 8 + 1 = (fuel + 7) + 2 from rfl, pm_step_num]
  rw [show fuel + 7 + 1 = (fuel + 6) + 2 from rfl, pm_step_str]
  rw [show fuel + 6 + 1 = (fuel + 5) + 2 from rfl, pm_step_num]
  rw [show fuel + 5 + 1 = (fuel + 4) + 2 from rfl, pm_step_str]
  rw [show fuel + 4 + 1 = (fuel + 3) + 2 from rfl, pm_step_str]
  rw [show fuel + 3 + 1 = (fuel + 2) + 2 from rfl, pm_step_str]
  rw [show fuel + 2 + 1 = (fuel + 1) + 2 from rfl, pm_step_str]
  rw [show fuel + 1 + 1 = fuel + 2 from rfl, pm_last_str]
  simp +decide [prefsJson, setField, destinationKey, startDateKey, daysKey, budgetKey,
    travelersKey, interestsKey, paceKey, mustIncludeKey, avoidKey, notesKey]

/-- `JSON.parse` inverts `JSON.stringify` on preferences records, at the
level of the recovered JavaScript object. -/
theorem jsonParse_stringifyPrefs (p : Prefs) :
    jsonParse (stringifyPrefs p) = some (prefsJson p) := by
  have hlen : 12 ≤ (stringifyPrefs p).length + 2 := by
    simp [stringifyPrefs]
    omega
  obtain ⟨f, hf⟩ : ∃ f, (stringifyPrefs p).length + 2 = f + 12 :=
    ⟨(stringifyPrefs p).length + 2 - 12, by omega⟩
  rw [jsonParse, hf, parse_stringifyPrefs]
  simp [skipWs]

/-! ## Loading a plan object back into the form

`src/app/page.tsx` lines 118-127: when a decoded value is truthy, its
`startDate` property (if truthy) is replaced by `new Date(startDate)`, and
the resulting object is passed to `form.reset`.  `extractPrefs` reads such
an object back at the type of the form values, evaluating `new Date` on
the ISO strings the serializers produce. -/

/-- Lines 120-122: `if (dataToLoad.startDate) dataToLoad.startDate = new
Date(dataToLoad.startDate)`. -/
def convertStartDate (j : JsVal) : JsVal :=
  match j with
  | JsVal.obj kvs =>
    (match assocGet kvs startDateKey with
     | some v =>
       if jsTruthy v then JsVal.obj (setField kvs startDateKey (JsVal.date v))
       else JsVal.obj kvs
     | none => JsVal.obj kvs)
  | j => j

def asStr : Option JsVal → Option (List Char)
  | some (JsVal.str s) => some s
  | _ => none

def asNat : Option JsVal → Option Nat
  | some (JsVal.num n) => if n < 0 then none else some n.toNat
  | _ => none

def asDateFromIso : Option JsVal → Option DateRec
  | some (JsVal.date (JsVal.str s)) => parseIsoDate s
  | _ => none

def budgetOfChars (s : List Char) : Option Budget :=
  if s = "Low".toList then some Budget.Low
  else if s = "Medium".toList then some Budget.Medium
  else if s = "Luxury".toList then some Budget.Luxury
  else none

def paceOfChars (s : List Char) : Option Pace :=
  if s = "Relaxed".toList then some Pace.Relaxed
  else if s = "Balanced".toList then some Pace.Balanced
  else if s = "Intense".toList then some Pace.Intense
  else none

def asBudget (v : Option JsVal) : Option Budget :=
  match asStr v with
  | some s => budgetOfChars s
  | none => none

def asPace (v : Option JsVal) : Option Pace :=
  match asStr v with
  | some s => paceOfChars s
  | none => none

/-- Reading a (date-converted) plan object back as a preferences record:
the value the form fields hold after `form.reset(dataToLoad)`, at the
record's type. -/
def extractPrefs (j : JsVal) : Option Prefs :=
  match asStr (getField j destinationKey), asDateFromIso (getField j startDateKey),
      asNat (getField j daysKey), asBudget (getField j budgetKey),
      asNat (getField j travelersKey), asStr (getField j interestsKey),
      asPace (getField j paceKey), asStr (getField j mustIncludeKey),
      asStr (getField j avoidKey), asStr (getField j notesKey) with
  | some dest, some sd, some dy, some bu, some tr, some int, some pa,
      some mi, some av, some no =>
    some (Prefs.mk dest sd dy bu tr int pa mi av no)
  | _, _, _, _, _, _, _, _, _, _ => none

theorem budgetOfChars_toChars (b : Budget) : budgetOfChars b.toChars = some b := by
  cases b <;> rfl

theorem paceOfChars_toChars (q : Pace) : paceOfChars q.toChars = some q := by
  cases q <;> rfl

theorem isoOfDate_ne_nil (d : DateRec) : isoOfDate d ≠ [] := by
  intro h
  have hlen := congrArg List.length h
  simp [isoOfDate, padDigits_length] at hlen

theorem isoOfDate_truthy (d : DateRec) : jsTruthy (JsVal.str (isoOfDate d)) = true := by
  cases hiso : isoOfDate d with
  | nil => exact absurd hiso (isoOfDate_ne_nil d)
  | cons c cs => simp [jsTruthy]

/-- Converting the date and reading the fields back recovers the original
preferences record. -/
theorem extractPrefs_convert_prefsJson (p : Prefs) (h : p.startDate.printable) :
    extractPrefs (convertStartDate (prefsJson p)) = some p := by
  have hconv : convertStartDate (prefsJson p) =
      JsVal.obj (setField
        [(destinationKey, JsVal.str p.destination),
         (startDateKey, JsVal.str (isoOfDate p.startDate)),
         (daysKey, JsVal.num (p.days : Int)),
         (budgetKey, JsVal.str p.budget.toChars),
         (travelersKey, JsVal.num (p.travelers : Int)),
         (interestsKey, JsVal.str p.interests),
         (paceKey, JsVal.str p.pace.toChars),
         (mustIncludeKey, JsVal.str p.mustInclude),
         (avoidKey, JsVal.str p.avoid),
         (notesKey, JsVal.str p.notes)]
        startDateKey (JsVal.date (JsVal.str (isoOfDate p.startDate)))) := by
    simp +decide [convertStartDate, prefsJson, assocGet, destinationKey, startDateKey,
      isoOfDate_truthy p.startDate]
  rw [hconv]
  have hd : ¬((p.days : Int) < 0) := by omega
  have ht : ¬((p.travelers : Int) < 0) := by omega
  simp +decide [hd, ht, extractPrefs, setField, getField, assocGet, asStr, asNat, asBudget,
    asPace, asDateFromIso, destinationKey, startDateKey, daysKey, budgetKey,
    travelersKey, interestsKey, paceKey, mustIncludeKey, avoidKey, notesKey,
    budgetOfChars_toChars, paceOfChars_toChars, parseIsoDate_isoOfDate p.startDate h]

/-! ## `btoa` and `atob`

The share link embeds `btoa(JSON.stringify(values))`
(`src/app/page.tsx` lines 134-136) and the loader applies
`JSON.parse(atob(planParam))` (line 103).  `btoa` rejects any character
above U+00FF (the `InvalidCharacterError` of the Latin-1 check); `atob`
rejects characters outside the base64 alphabet and unpadded lengths. -/

def b64Alphabet : List Char :=
  "ABCDEFGHIJKLMNOPQRSTUVWXYZabcdefghijklmnopqrstuvwxyz0123456789+/".toList

def b64Char (n : Nat) : Char := b64Alphabet.getD n 'A'

def b64Val (c : Char) : Option Nat := b64Alphabet.findIdx? (fun x => x = c)

def byteOf (c : Char) : Option Nat := if c.toNat ≤ 255 then some c.toNat else none

def btoa : List Char → Option (List Char)
  | [] => some []
  | [c0] =>
    (match byteOf c0 with
     | some b0 => some [b64Char (b0 / 4), b64Char (b0 % 4 * 16), '=', '=']
     | none => none)
  | [c0, c1] =>
    (match byteOf c0, byteOf c1 with
     | some b0, some b1 =>
       some [b64Char (b0 / 4), b64Char (b0 % 4 * 16 + b1 / 16), b64Char (b1 % 16 * 4), '=']
     | _, _ => none)
  | c0 :: c1 :: c2 :: rest =>
    (match byteOf c0, byteOf c1, byteOf c2, btoa rest with
     | some b0, some b1, some b2, some tail =>
       some (b64Char (b0 / 4) :: b64Char (b0 % 4 * 16 + b1 / 16) ::
             b64Char (b1 % 16 * 4 + b2 / 64) :: b64Char (b2 % 64) :: tail)
     | _, _, _, _ => none)

def atob : List Char → Option (List Char)
  | [] => some []
  | a :: b :: c :: d :: rest =>
    if rest = [] ∧ c = '=' ∧ d = '=' then
      (match b64Val a, b64Val b with
       | some va, some vb => some [Char.ofNat (va * 4 + vb / 16)]
       | _, _ => none)
    else if rest = [] ∧ d = '=' then
      (match b64Val a, b64Val b, b64Val c with
       | some va, some vb, some vc =>
         some [Char.ofNat (va * 4 + vb / 16), Char.ofNat (vb % 16 * 16 + vc / 4)]
       | _, _, _ => none)
    else
      (match b64Val a, b64Val b, b64Val c, b64Val d, atob rest with
       | some va, some vb, some vc, some vd, some tail =>
         some (Char.ofNat (va * 4 + vb / 16) :: Char.ofNat (vb % 16 * 16 + vc / 4) ::
               Char.ofNat (vc % 4 * 64 + vd) :: tail)
       | _, _, _, _, _ => none)
  | _ => none

theorem b64Val_b64Char : ∀ n, n < 64 → b64Val (b64Char n) = some n := by decide

theorem b64Char_ne_eq : ∀ n, n < 64 → ¬(b64Char n = '=') := by decide

/-- `atob` undoes `btoa` on Latin-1 strings. -/
theorem atob_btoa : ∀ (n : Nat) (s : List Char), s.length ≤ n →
    (∀ c ∈ s, c.toNat ≤ 255) → (btoa s).bind atob = some s := by
  intro n
  induction n with
  | zero =>
    intro s hlen h
    have hs : s = [] := List.length_eq_zero.mp (Nat.le_zero.mp hlen)
    subst hs
    rfl
  | succ n ih =>
    intro s hlen h
    match s with
    | [] => rfl
    | [c0] =>
      have hb0 : c0.toNat ≤ 255 := h c0 (by simp)
      have v1 := b64Val_b64Char (c0.toNat / 4) (by omega)
      have v2 := b64Val_b64Char (c0.toNat % 4 * 16) (by omega)
      have e1 : c0.toNat / 4 * 4 + c0.toNat % 4 * 16 / 16 = c0.toNat := by omega
      simp only [btoa, byteOf, if_pos hb0, Option.bind]
      rw [atob.eq_def]
      simp [v1, v2, e1, Char.ofNat_toNat]
      rw [show c0.toNat / 4 * 4 + c0.toNat % 4 = c0.toNat by omega, Char.ofNat_toNat]
    | [c0, c1] =>
      have hb0 : c0.toNat ≤ 255 := h c0 (by simp)
      have hb1 : c1.toNat ≤ 255 := h c1 (by simp)
      have v1 := b64Val_b64Char (c0.toNat / 4) (by omega)
      have v2 := b64Val_b64Char (c0.toNat % 4 * 16 + c1.toNat / 16) (by omega)
      have v3 := b64Val_b64Char (c1.toNat % 16 * 4) (by omega)
      have hq : ¬(b64Char (c1.toNat % 16 * 4) = '=') := b64Char_ne_eq _ (by omega)
      have e1 : c0.toNat / 4 * 4 + (c0.toNat % 4 * 16 + c1.toNat / 16) / 16 = c0.toNat := by
        omega
      have e2 : (c0.toNat % 4 * 16 + c1.toNat / 16) % 16 * 16 + c1.toNat % 16 * 4 / 4 =
          c1.toNat := by omega
      simp only [btoa, byteOf, if_pos hb0, if_pos hb1, Option.bind]
      rw [atob.eq_def]
      simp [v1, v2, v3, hq, e1, e2, Char.ofNat_toNat]
      rw [show (c0.toNat % 4 * 16 + c1.toNat / 16) % 16 * 16 + c1.toNat % 16 = c1.toNat by
          omega, Char.ofNat_toNat]
    | c0 :: c1 :: c2 :: cs =>
      have hb0 : c0.toNat ≤ 255 := h c0 (by simp)
      have hb1 : c1.toNat ≤ 255 := h c1 (by simp)
      have hb2 : c2.toNat ≤ 255 := h c2 (by simp)
      have hrest : ∀ c ∈ cs, c.toNat ≤ 255 := fun c hc => h c (by simp [hc])
      have hlen2 : cs.length ≤ n := by simp at hlen; omega
      have ihr := ih cs hlen2 hrest
      cases hbt : btoa cs with
      | none => rw [hbt] at ihr; simp [Option.bind] at ihr
      | some tail =>
        rw [hbt] at ihr
        simp only [Option.bind] at ihr
        have v1 := b64Val_b64Char (c0.toNat / 4) (by omega)
        have v2 := b64Val_b64Char (c0.toNat % 4 * 16 + c1.toNat / 16) (by omega)
        have v3 := b64Val_b64Char (c1.toNat % 16 * 4 + c2.toNat / 64) (by omega)
        have v4 := b64Val_b64Char (c2.toNat % 64) (by omega)
        have hq3 : ¬(b64Char (c1.toNat % 16 * 4 + c2.toNat / 64) = '=') :=
          b64Char_ne_eq _ (by omega)
        have hq4 : ¬(b64Char (c2.toNat % 64) = '=') := b64Char_ne_eq _ (by omega)
        have e1 : c0.toNat / 4 * 4 + (c0.toNat % 4 * 16 + c1.toNat / 16) / 16 = c0.toNat := by
          omega
        have e2 : (c0.toNat % 4 * 16 + c1.toNat / 16) % 16 * 16 +
            (c1.toNat % 16 * 4 + c2.toNat / 64) / 4 = c1.toNat := by omega
        have e3 : (c1.toNat % 16 * 4 + c2.toNat / 64) % 4 * 64 + c2.toNat % 64 = c2.toNat := by
          omega
        simp only [btoa, byteOf, if_pos hb0, if_pos hb1, if_pos hb2, hbt, Option.bind]
        rw [atob.eq_def]
        simp [v1, v2, v3, v4, hq3, hq4, ihr, e1, e2, e3, Char.ofNat_toNat]

/-! ## The share link and the plan-loading effect -/

/-- `handleShare` (`src/app/page.tsx` lines 132-136): the value of the
`plan` query parameter is `btoa(JSON.stringify(values))`; `none` models
the `InvalidCharacterError` `btoa` throws on non-Latin-1 text. -/
def handleShareEncode (p : Prefs) : Option (List Char) := btoa (stringifyPrefs p)

/-- Line 103: `JSON.parse(atob(planParam))`; `none` models the caught
exception. -/
def decodePlanJson (param : List Char) : Option JsVal :=
  match atob param with
  | some text => jsonParse text
  | none => none

/-- The decoded plan after the `startDate` conversion and `form.reset`,
read back at the record type: the composite decode path of a shared
link. -/
def decodePlanPrefs (param : List Char) : Option Prefs :=
  match decodePlanJson param with
  | some j => extractPrefs (convertStartDate j)
  | none => none

/-- Browser `localStorage`: a mutable key/value store of strings. -/
def storeGet : List (List Char × List Char) → List Char → Option (List Char)
  | [], _ => none
  | (k1, v1) :: rest, k => if k1 = k then some v1 else storeGet rest k

def storeSet : List (List Char × List Char) → List Char → List Char →
    List (List Char × List Char)
  | [], k, v => [(k, v)]
  | (k1, v1) :: rest, k, v =>
    if k1 = k then (k1, v) :: rest else (k1, v1) :: storeSet rest k v

/-- The single browser-local key used by the page. -/
def lastItineraryInputKey : List Char := "last_itinerary_input".toList

inductive ToastMsg where
  | errorGenerating (description : List Char) : ToastMsg
  | unexpectedError : ToastMsg
  | linkCopied : ToastMsg
deriving DecidableEq

/-- Result of running the plan-loading `useEffect`
(`src/app/page.tsx` lines 97-129) once: whether `localStorage` was read,
how many `console.error` diagnostics were emitted, the value passed to
`form.reset` (if any), whether generation was auto-triggered, and the
toasts it showed (the effect shows none). -/
structure LoadResult where
  storageRead : Bool
  consoleErrors : Nat
  formReset : Option JsVal
  triggered : Bool
  toasts : List ToastMsg

/-- Lines 107-115: read and parse `localStorage.getItem('last_itinerary_input')`;
returns the parsed value (if any) and the number of console diagnostics. -/
def readSavedData (storage : List (List Char × List Char)) : Option JsVal × Nat :=
  match storeGet storage lastItineraryInputKey with
  | some saved =>
    if saved.isEmpty then (none, 0)
    else
      (match jsonParse saved with
       | some j => (some j, 0)
       | none => (none, 1))
  | none => (none, 0)

/-- The plan-loading `useEffect` (lines 97-129). -/
def loadEffect (planParam : Option (List Char))
    (storage : List (List Char × List Char)) : LoadResult :=
  match
    (match planParam with
     | some p =>
       if p.isEmpty then
         (match readSavedData storage with
          | (d, e) => (d, true, e))
       else
         (match decodePlanJson p with
          | some j => (some j, false, 0)
          | none => (none, false, 1))
     | none =>
       (match readSavedData storage with
        | (d, e) => (d, true, e))) with
  | (dataRaw, sRead, errs) =>
    (match dataRaw with
     | some j =>
       if jsTruthy j then
         LoadResult.mk sRead errs (some (convertStartDate j))
           (jsTruthyOpt (getField (convertStartDate j) destinationKey)) []
       else LoadResult.mk sRead errs none false []
     | none => LoadResult.mk sRead errs none false [])

/-! ## The server action and the generated itinerary -/

structure ItineraryItem where
  day : Nat
  date : List Char
  morning : List Char
  afternoon : List Char
  evening : List Char
deriving DecidableEq

/-- The itinerary record of
`GeneratePersonalizedItineraryOutputSchema`. -/
structure GenerateOutput where
  summary : List Char
  itinerary : List ItineraryItem
  estimatedBudget : List Char
  tips : List Char
deriving DecidableEq

/-- Outcome of the one `await generatePersonalizedItinerary(input)` call:
it resolves with an output or throws a value whose `.message` property is
the given string (or absent, e.g. for a thrown non-`Error`). -/
inductive GenCallOutcome where
  | ok (out : GenerateOutput) : GenCallOutcome
  | threw (message : Option (List Char)) : GenCallOutcome

inductive ActionResult where
  | itineraryResult (out : GenerateOutput) : ActionResult
  | errorResult (message : List Char) : ActionResult
deriving DecidableEq

def unknownErrorMessage : List Char := "An unknown error occurred.".toList

def generateItineraryErrorHead : List Char := "Failed to generate itinerary: ".toList

/-- `generateItineraryAction` (`src/app/actions.ts` lines 9-21): a single
pass-through call in a `try`/`catch`; on a throw it returns
`{ error: 'Failed to generate itinerary: ' + (e.message || 'An unknown
error occurred.') }`. -/
def generateItineraryAction (call : GenCallOutcome) : ActionResult :=
  match call with
  | GenCallOutcome.ok out => ActionResult.itineraryResult out
  | GenCallOutcome.threw m =>
    ActionResult.errorResult (generateItineraryErrorHead ++
      (match m with
       | some msg => if msg.isEmpty then unknownErrorMessage else msg
       | none => unknownErrorMessage))

/-! ## The client submit state machine

`generateItinerary` (`src/app/page.tsx` lines 68-95) as a two-phase step
function: `submit` is the synchronous part before the `await` (guarded by
the button's `disabled={loading}`), and the `complete` events are the
continuation after the awaited action settles — result handling, the
`catch`, and the `finally`.  `outstanding` counts requests in flight. -/

structure UiState where
  loading : Bool
  itinerary : Option GenerateOutput
  storage : List (List Char × List Char)
  toasts : List ToastMsg
  outstanding : Nat

inductive UiEvent where
  | submit (d : Prefs) : UiEvent
  | complete (r : ActionResult) : UiEvent
  | completeThrown : UiEvent

def uiStep (s : UiState) (e : UiEvent) : UiState :=
  match e with
  | UiEvent.submit d =>
    if s.loading then s
    else
      UiState.mk true none (storeSet s.storage lastItineraryInputKey (stringifyPrefs d))
        s.toasts (s.outstanding + 1)
  | UiEvent.complete r =>
    if s.loading then
      (match r with
       | ActionResult.itineraryResult out =>
         UiState.mk false (some out) s.storage s.toasts (s.outstanding - 1)
       | ActionResult.errorResult m =>
         UiState.mk false s.itinerary s.storage (s.toasts ++ [ToastMsg.errorGenerating m])
           (s.outstanding - 1))
    else s
  | UiEvent.completeThrown =>
    if s.loading then
      UiState.mk false s.itinerary s.storage (s.toasts ++ [ToastMsg.unexpectedError])
        (s.outstanding - 1)
    else s

def initUiState : UiState := UiState.mk false none [] [] 0

def runUi (evs : List UiEvent) : UiState := evs.foldl uiStep initUiState

/-- An event is enabled when the browser can actually deliver it: the
submit button is disabled while `loading`, and a request can only settle
while one is in flight. -/
def uiEnabled (s : UiState) : UiEvent → Bool
  | UiEvent.submit _ => !s.loading
  | UiEvent.complete _ => s.loading
  | UiEvent.completeThrown => s.loading

def validFrom : UiState → List UiEvent → Bool
  | _, [] => true
  | s, e :: evs => uiEnabled s e && validFrom (uiStep s e) evs

/-! ## The generative flow's input schema

`GeneratePersonalizedItineraryInputSchema`
(`src/ai/flows/generate-personalized-itinerary.ts` lines 15-38). -/

structure GeneratePersonalizedItineraryInput where
  destination : List Char
  startDate : List Char
  days : Int
  budget : Budget
  travelers : Int
  interests : List Char
  pace : Pace
  mustInclude : Option (List Char)
  avoid : Option (List Char)
  notes : Option (List Char)
deriving DecidableEq

/-- `z.number().min(1).max(21).default(3)`. -/
def zodDays : Option JsVal → Option Int
  | none => some 3
  | some (JsVal.num n) => if 1 ≤ n ∧ n ≤ 21 then some n else none
  | some _ => none

/-- `z.number().min(1).default(2)`. -/
def zodTravelers : Option JsVal → Option Int
  | none => some 2
  | some (JsVal.num n) => if 1 ≤ n then some n else none
  | some _ => none

/-- `z.enum(['Low', 'Medium', 'Luxury']).default('Medium')`. -/
def zodBudget : Option JsVal → Option Budget
  | none => some Budget.Medium
  | some (JsVal.str s) => budgetOfChars s
  | some _ => none

/-- `z.enum(['Relaxed', 'Balanced', 'Intense']).default('Balanced')`. -/
def zodPace : Option JsVal → Option Pace
  | none => some Pace.Balanced
  | some (JsVal.str s) => paceOfChars s
  | some _ => none

/-- `z.string().optional()`. -/
def zodOptionalString : Option JsVal → Option (Option (List Char))
  | none => some none
  | some (JsVal.str s) => some (some s)
  | some _ => none

/-- `z.string()`. -/
def zodRequiredString : Option JsVal → Option (List Char)
  | some (JsVal.str s) => some s
  | _ => none

/-- `GeneratePersonalizedItineraryInputSchema.parse` on a JavaScript
value: `none` models the thrown `ZodError`. -/
def zodParseItineraryInput (j : JsVal) : Option GeneratePersonalizedItineraryInput :=
  match j with
  | JsVal.obj kvs =>
    (match zodRequiredString (assocGet kvs destinationKey),
        zodRequiredString (assocGet kvs startDateKey),
        zodDays (assocGet kvs daysKey),
        zodBudget (assocGet kvs budgetKey),
        zodTravelers (assocGet kvs travelersKey),
        zodRequiredString (assocGet kvs interestsKey),
        zodPace (assocGet kvs paceKey),
        zodOptionalString (assocGet kvs mustIncludeKey),
        zodOptionalString (assocGet kvs avoidKey),
        zodOptionalString (assocGet kvs notesKey) with
     | some dest, some sd, some dy, some bu, some tr, some int, some pa,
         some mi, some av, some no =>
       some (GeneratePersonalizedItineraryInput.mk dest sd dy bu tr int pa mi av no)
     | _, _, _, _, _, _, _, _, _, _ => none)
  | _ => none

/-! ## Supporting lemmas for the claims -/

theorem storeGet_storeSet (st : List (List Char × List Char)) (k v : List Char) :
    storeGet (storeSet st k v) k = some v := by
  induction st with
  | nil => simp [storeSet, storeGet]
  | cons kv rest ih =>
    by_cases hk : kv.1 = k
    · simp [storeSet, storeGet, hk]
    · simp [storeSet, storeGet, hk, ih]

theorem assocGet_setField_ne (kvs : List (List Char × JsVal)) (k k' : List Char)
    (v : JsVal) (h : ¬k = k') : assocGet (setField kvs k v) k' = assocGet kvs k' := by
  induction kvs with
  | nil => simp [setField, assocGet, h]
  | cons kv rest ih =>
    by_cases hk : kv.1 = k
    · simp [setField, assocGet, hk, h]
    · simp [setField, assocGet, hk, ih]

theorem getField_convertStartDate_ne (kvs : List (List Char × JsVal)) (k : List Char)
    (h : ¬startDateKey = k) :
    getField (convertStartDate (JsVal.obj kvs)) k = assocGet kvs k := by
  simp only [convertStartDate]
  cases hsd : assocGet kvs startDateKey with
  | none => simp [getField]
  | some v =>
    by_cases ht : jsTruthy v
    · simp [ht, getField, assocGet_setField_ne kvs startDateKey k _ h]
    · simp [ht, getField]

theorem validFrom_append (evs : List UiEvent) :
    ∀ (s : UiState) (e : UiEvent), validFrom s (evs ++ [e]) = true →
      validFrom s evs = true ∧ uiEnabled (evs.foldl uiStep s) e = true := by
  induction evs with
  | nil =>
    intro s e h
    simp only [List.nil_append, validFrom, Bool.and_eq_true] at h
    exact ⟨rfl, h.1⟩
  | cons x xs ih =>
    intro s e h
    simp only [List.cons_append, validFrom, Bool.and_eq_true] at h
    obtain ⟨hx, hrest⟩ := h
    obtain ⟨h1, h2⟩ := ih (uiStep s x) e hrest
    refine ⟨?_, ?_⟩
    · simp [validFrom, hx, h1]
    · simpa using h2

theorem runUi_concat (evs : List UiEvent) (e : UiEvent) :
    runUi (evs ++ [e]) = uiStep (runUi evs) e := by
  simp [runUi, List.foldl_append]

theorem loading_itinerary_none (evs : List UiEvent)
    (h : validFrom initUiState evs = true) :
    (runUi evs).loading = true → (runUi evs).itinerary = none := by
  rcases List.eq_nil_or_concat evs with rfl | ⟨L, e, rfl⟩
  · intro hl
    simp [runUi, initUiState] at hl
  · rw [List.concat_eq_append] at h ⊢
    obtain ⟨hvL, hen⟩ := validFrom_append L initUiState e h
    rw [runUi_concat]
    cases e with
    | submit d =>
      have hl : (runUi L).loading = false := by
        simpa [uiEnabled, runUi] using hen
      intro _
      simp [uiStep, hl]
    | complete r =>
      intro hcon
      by_cases hl : (runUi L).loading
      · cases r <;> simp [uiStep, hl] at hcon
      · simp [uiStep, hl] at hcon
    | completeThrown =>
      intro hcon
      by_cases hl : (runUi L).loading
      · simp [uiStep, hl] at hcon
      · simp [uiStep, hl] at hcon

def samplePrefs : Prefs :=
  Prefs.mk ("Goa".toList) (DateRec.mk 2025 6 1 0 0 0 0) 3 Budget.Medium 2
    ("Food".toList) Pace.Balanced [] [] []

def sampleOutput : GenerateOutput :=
  GenerateOutput.mk ("A trip".toList) [] ("low".toList) ("tips".toList)

/-- C1: `generateItineraryAction` never throws; it returns the itinerary
on success, and on a throw it returns an `error` string made of the
prefix `Failed to generate itinerary: ` followed by the thrown error's
message, or by `An unknown error occurred.` when the error has no
(non-empty) message; the model makes exactly one call to the flow, with
no retry and no other code path. -/
theorem generateItineraryAction_total_spec :
    (∀ out, generateItineraryAction (GenCallOutcome.ok out) =
      ActionResult.itineraryResult out) ∧
    (∀ msg, msg ≠ [] →
      generateItineraryAction (GenCallOutcome.threw (some msg)) =
        ActionResult.errorResult (generateItineraryErrorHead ++ msg)) ∧
    (∀ m, m = none ∨ m = some [] →
      generateItineraryAction (GenCallOutcome.threw m) =
        ActionResult.errorResult (generateItineraryErrorHead ++ unknownErrorMessage)) := by
  refine ⟨fun out => rfl, ?_, ?_⟩
  · intro msg hne
    cases msg with
    | nil => exact absurd rfl hne
    | cons c cs => rfl
  · intro m hm
    rcases hm with hm | hm <;> subst hm <;> rfl

theorem generateItineraryAction_total_spec_witness :
    generateItineraryAction (GenCallOutcome.ok sampleOutput) =
        ActionResult.itineraryResult sampleOutput ∧
    (['b'] : List Char) ≠ [] ∧
    generateItineraryAction (GenCallOutcome.threw (some ['b'])) =
        ActionResult.errorResult (generateItineraryErrorHead ++ ['b']) ∧
    generateItineraryAction (GenCallOutcome.threw none) =
        ActionResult.errorResult (generateItineraryErrorHead ++ unknownErrorMessage) :=
  ⟨generateItineraryAction_total_spec.1 sampleOutput, by decide,
   generateItineraryAction_total_spec.2.1 ['b'] (by decide),
   generateItineraryAction_total_spec.2.2 none (Or.inl rfl)⟩

set_option maxRecDepth 8000 in
/-- C7 counterexample: a generation request is started with no form
submission.  Opening a shared link `?plan=eyJkZXN0aW5hdGlvbiI6IkdvYSJ9`
(which decodes to a record with the non-empty destination `Goa`), and
likewise an ordinary revisit that restores a saved record from
`localStorage`, make the plan-loading effect itself call
`generateItinerary` (`src/app/page.tsx` lines 124-126): generation
starts although no submit ever happened, so `a request is started only
by explicit form submission` is false of the code.  This auto-trigger
call site also bypasses the `disabled` guard, which lives only on the
submit button, and `generateItinerary` itself never checks the loading
flag. -/
theorem request_started_without_submission :
    (loadEffect (some ("eyJkZXN0aW5hdGlvbiI6IkdvYSJ9".toList)) []).triggered = true ∧
    (loadEffect none [(lastItineraryInputKey, stringifyPrefs samplePrefs)]).triggered
      = true :=
  ⟨rfl, rfl⟩

/-- C7 amended: a generation request is started either by explicit form
submission or by the plan-loading effect's auto-trigger — restoring a
saved record with a non-empty destination (and likewise decoding a
shared link) starts generation with no submission.  The in-flight flag
is set for the whole duration of a request and cleared on every
completion path (success, error result, thrown exception); a submission
arriving while the flag is set is a no-op, because the submit button is
disabled, so along every sequence of submissions and completions the
in-flight count stays at most one and equals one exactly while the flag
is set. -/
theorem single_outstanding_request :
    (∀ storage d, storeGet storage lastItineraryInputKey = some (stringifyPrefs d) →
      d.destination ≠ [] → (loadEffect none storage).triggered = true) ∧
    (∀ evs : List UiEvent, (runUi evs).outstanding ≤ 1 ∧
      ((runUi evs).loading = true ↔ (runUi evs).outstanding = 1)) ∧
    (∀ s r, (uiStep s (UiEvent.complete r)).loading = false) ∧
    (∀ s, (uiStep s UiEvent.completeThrown).loading = false) ∧
    (∀ s d, s.loading = true → uiStep s (UiEvent.submit d) = s) := by
  have inv : ∀ (evs : List UiEvent) (s : UiState),
      (s.loading = true ∧ s.outstanding = 1) ∨ (s.loading = false ∧ s.outstanding = 0) →
      ((evs.foldl uiStep s).loading = true ∧ (evs.foldl uiStep s).outstanding = 1) ∨
        ((evs.foldl uiStep s).loading = false ∧ (evs.foldl uiStep s).outstanding = 0) := by
    intro evs
    induction evs with
    | nil => intro s h; exact h
    | cons e evs ih =>
      intro s h
      apply ih
      rcases h with ⟨hl, ho⟩ | ⟨hl, ho⟩
      · cases e with
        | submit d => left; simp [uiStep, hl, ho]
        | complete r => right; cases r <;> simp [uiStep, hl, ho]
        | completeThrown => right; simp [uiStep, hl, ho]
      · cases e with
        | submit d => left; simp [uiStep, hl, ho]
        | complete r => right; cases r <;> simp [uiStep, hl, ho]
        | completeThrown => right; simp [uiStep, hl, ho]
  refine ⟨?_, ?_, ?_, ?_, ?_⟩
  · intro storage d hget hdest
    have hne : (stringifyPrefs d).isEmpty = false := by
      simp [stringifyPrefs]
    have ht : jsTruthy (prefsJson d) = true := rfl
    have hgf : getField (convertStartDate (prefsJson d)) destinationKey =
        some (JsVal.str d.destination) := by
      simp only [prefsJson]
      rw [getField_convertStartDate_ne _ _ (by decide : ¬startDateKey = destinationKey)]
      simp [assocGet]
    have hie : d.destination.isEmpty = false := by
      cases hd : d.destination with
      | nil => exact absurd hd hdest
      | cons c cs => rfl
    simp only [loadEffect, readSavedData, hget, hne, Bool.false_eq_true, if_false,
      jsonParse_stringifyPrefs, ht, if_true, hgf, jsTruthyOpt]
    simp [jsTruthy, hie]
  · intro evs
    have := inv evs initUiState (Or.inr ⟨rfl, rfl⟩)
    rcases this with ⟨hl, ho⟩ | ⟨hl, ho⟩ <;>
      simp [runUi] at hl ho ⊢ <;> simp [hl, ho]
  · intro s r
    by_cases hl : s.loading
    · cases r <;> simp [uiStep, hl]
    · have hl2 : s.loading = false := by simpa using hl
      cases r <;> simp [uiStep, hl2]
  · intro s
    by_cases hl : s.loading
    · simp [uiStep, hl]
    · have hl2 : s.loading = false := by simpa using hl
      simp [uiStep, hl2]
  · intro s d hl
    simp [uiStep, hl]

theorem single_outstanding_request_witness :
    storeGet [(lastItineraryInputKey, stringifyPrefs samplePrefs)] lastItineraryInputKey
      = some (stringifyPrefs samplePrefs) ∧
    samplePrefs.destination ≠ [] ∧
    (loadEffect none [(lastItineraryInputKey, stringifyPrefs samplePrefs)]).triggered
      = true ∧
    (uiStep initUiState (UiEvent.submit samplePrefs)).loading = true ∧
    uiStep (uiStep initUiState (UiEvent.submit samplePrefs)) (UiEvent.submit samplePrefs) =
      uiStep initUiState (UiEvent.submit samplePrefs) :=
  ⟨rfl, by decide,
   single_outstanding_request.1 [(lastItineraryInputKey, stringifyPrefs samplePrefs)]
     samplePrefs rfl (by decide),
   rfl,
   single_outstanding_request.2.2.2.2 _ samplePrefs rfl⟩

/-- C6 counterexample: a successful result does not remain held for
display across a later failed request.  In the valid trace
submit/success/submit/error-completion, the success was displayed after
the second event, but after the later failed request the display is
empty, not the earlier successful result: `generateItinerary` runs
`setItinerary(null)` as soon as a new request starts. -/
theorem lastSuccess_cleared_by_new_request :
    validFrom initUiState
        [UiEvent.submit samplePrefs,
         UiEvent.complete (ActionResult.itineraryResult sampleOutput),
         UiEvent.submit samplePrefs,
         UiEvent.complete (ActionResult.errorResult ("boom".toList))] = true ∧
    (runUi [UiEvent.submit samplePrefs,
      UiEvent.complete (ActionResult.itineraryResult sampleOutput)]).itinerary =
        some sampleOutput ∧
    (runUi [UiEvent.submit samplePrefs,
      UiEvent.complete (ActionResult.itineraryResult sampleOutput),
      UiEvent.submit samplePrefs,
      UiEvent.complete (ActionResult.errorResult ("boom".toList))]).itinerary = none :=
  ⟨rfl, rfl, rfl⟩

/-- C6 amended: along every valid event sequence, the displayed itinerary
is non-empty exactly when the most recent event is a successful
completion, and then it is that completion's output; in particular a new
request clears the display, so a successful result does not remain
displayed across a later failed request. -/
theorem displayedItinerary_lastSuccess (evs : List UiEvent)
    (h : validFrom initUiState evs = true) (out : GenerateOutput) :
    (runUi evs).itinerary = some out ↔
      evs.getLast? = some (UiEvent.complete (ActionResult.itineraryResult out)) := by
  rcases List.eq_nil_or_concat evs with rfl | ⟨L, e, rfl⟩
  · simp [runUi, initUiState]
  · rw [List.concat_eq_append] at h ⊢
    obtain ⟨hvL, hen⟩ := validFrom_append L initUiState e h
    rw [runUi_concat]
    have hlast : (L ++ [e]).getLast? = some e := by
      simp [List.getLast?_concat]
    rw [hlast]
    cases e with
    | submit d =>
      have hl : (runUi L).loading = false := by
        simpa [uiEnabled, runUi] using hen
      simp [uiStep, hl]
    | complete r =>
      have hl : (runUi L).loading = true := by
        simpa [uiEnabled, runUi] using hen
      cases r with
      | itineraryResult o =>
        simp [uiStep, hl]
      | errorResult m =>
        have hnone := loading_itinerary_none L hvL hl
        simp only [runUi] at hnone hl ⊢
        simp [uiStep, hl, hnone]
    | completeThrown =>
      have hl : (runUi L).loading = true := by
        simpa [uiEnabled, runUi] using hen
      have hnone := loading_itinerary_none L hvL hl
      simp only [runUi] at hnone hl ⊢
      simp [uiStep, hl, hnone]

theorem displayedItinerary_lastSuccess_witness :
    validFrom initUiState
        [UiEvent.submit samplePrefs,
         UiEvent.complete (ActionResult.itineraryResult sampleOutput)] = true ∧
    ((runUi [UiEvent.submit samplePrefs,
        UiEvent.complete (ActionResult.itineraryResult sampleOutput)]).itinerary =
          some sampleOutput ↔
      [UiEvent.submit samplePrefs,
        UiEvent.complete (ActionResult.itineraryResult sampleOutput)].getLast? =
          some (UiEvent.complete (ActionResult.itineraryResult sampleOutput))) :=
  ⟨rfl,
   displayedItinerary_lastSuccess
     [UiEvent.submit samplePrefs,
      UiEvent.complete (ActionResult.itineraryResult sampleOutput)] rfl sampleOutput⟩

/-- C3 counterexample: a malformed shared-link payload is not converted
into a user-visible notification.  Loading `?plan=#` fails to decode
(`#` is not base64), the effect logs one console diagnostic, and shows no
toast at all — contradicting the claim that every failure, a malformed
shared-link payload included, becomes a user-visible notification. -/
theorem malformedPlan_no_toast :
    (loadEffect (some ['#']) []).consoleErrors = 1 ∧
    (loadEffect (some ['#']) []).toasts = [] :=
  ⟨rfl, rfl⟩

/-- C3 amended: remote-call failures are converted into a user-visible
toast (one per failure, none distinguished by kind beyond its message,
none retried); a malformed shared-link payload is caught at the boundary
but produces only a console diagnostic and no notification, leaving the
form at its defaults and never falling back to storage. -/
theorem failureHandling_notifications :
    (∀ param storage, param ≠ [] → decodePlanJson param = none →
      (loadEffect (some param) storage).toasts = [] ∧
      (loadEffect (some param) storage).consoleErrors = 1 ∧
      (loadEffect (some param) storage).formReset = none ∧
      (loadEffect (some param) storage).storageRead = false) ∧
    (∀ s m, s.loading = true →
      (uiStep s (UiEvent.complete (ActionResult.errorResult m))).toasts =
        s.toasts ++ [ToastMsg.errorGenerating m]) ∧
    (∀ s, s.loading = true →
      (uiStep s UiEvent.completeThrown).toasts = s.toasts ++ [ToastMsg.unexpectedError]) := by
  refine ⟨?_, ?_, ?_⟩
  · intro param storage hne hdec
    have hie : param.isEmpty = false := by
      cases param with
      | nil => exact absurd rfl hne
      | cons c cs => rfl
    refine ⟨?_, ?_, ?_, ?_⟩ <;> simp [loadEffect, hie, hdec]
  · intro s m hl
    simp [uiStep, hl]
  · intro s hl
    simp [uiStep, hl]

theorem failureHandling_notifications_witness :
    (['#'] : List Char) ≠ [] ∧
    decodePlanJson ['#'] = none ∧
    (loadEffect (some ['#']) []).toasts = [] ∧
    (uiStep (uiStep initUiState (UiEvent.submit samplePrefs))
        (UiEvent.complete (ActionResult.errorResult ("x".toList)))).toasts =
      (uiStep initUiState (UiEvent.submit samplePrefs)).toasts ++
        [ToastMsg.errorGenerating ("x".toList)] :=
  ⟨by decide, rfl, (failureHandling_notifications.1 ['#'] [] (by decide) rfl).1,
   failureHandling_notifications.2.1 _ ("x".toList) rfl⟩

/-- C9 counterexample: with the `plan` parameter present but empty
(`?plan=`), `searchParams.get('plan')` returns the empty string, which is
falsy, so the effect takes the `else` branch and reads
`last_itinerary_input` from `localStorage` — contradicting the claim that
the key is never read whenever a `plan` parameter is present. -/
theorem emptyPlanParam_reads_storage :
    (loadEffect (some []) [(lastItineraryInputKey, ['x'])]).storageRead = true :=
  rfl

/-- C9 amended: whenever a `plan` parameter with a non-empty value is
present on load, `localStorage` is never read; in particular, when
decoding the parameter fails no saved record is used as a fallback and
the form stays at its defaults. -/
theorem planParam_precedence (param : List Char)
    (storage : List (List Char × List Char)) (h : param ≠ []) :
    (loadEffect (some param) storage).storageRead = false ∧
    (decodePlanJson param = none → (loadEffect (some param) storage).formReset = none) := by
  have hie : param.isEmpty = false := by
    cases param with
    | nil => exact absurd rfl h
    | cons c cs => rfl
  constructor
  · cases hd : decodePlanJson param with
    | none => simp [loadEffect, hie, hd]
    | some j =>
      cases hj : jsTruthy j <;> simp [loadEffect, hie, hd, hj]
  · intro hd
    simp [loadEffect, hie, hd]

theorem planParam_precedence_witness :
    (['#'] : List Char) ≠ [] ∧
    decodePlanJson ['#'] = none ∧
    (loadEffect (some ['#']) [(lastItineraryInputKey, ['x'])]).storageRead = false ∧
    (loadEffect (some ['#']) [(lastItineraryInputKey, ['x'])]).formReset = none :=
  ⟨by decide, rfl,
   (planParam_precedence ['#'] [(lastItineraryInputKey, ['x'])] (by decide)).1,
   (planParam_precedence ['#'] [(lastItineraryInputKey, ['x'])] (by decide)).2 rfl⟩

/-- C8: on load with a decodable `plan` parameter (a record, hence a
truthy object), the form is reset to the decoded preferences record (its
`startDate` converted back to a `Date`), and generation is auto-triggered
if and only if the decoded record's `destination` field is present and
non-empty. -/
theorem planParam_reset_and_autotrigger (param : List Char)
    (storage : List (List Char × List Char)) (kvs : List (List Char × JsVal))
    (hne : param ≠ [])
    (hdec : decodePlanJson param = some (JsVal.obj kvs))
    (hdest : assocGet kvs destinationKey = none ∨
      ∃ s, assocGet kvs destinationKey = some (JsVal.str s)) :
    (loadEffect (some param) storage).formReset =
      some (convertStartDate (JsVal.obj kvs)) ∧
    ((loadEffect (some param) storage).triggered = true ↔
      ∃ s, assocGet kvs destinationKey = some (JsVal.str s) ∧ s ≠ []) := by
  have hie : param.isEmpty = false := by
    cases param with
    | nil => exact absurd rfl hne
    | cons c cs => rfl
  have hget : getField (convertStartDate (JsVal.obj kvs)) destinationKey =
      assocGet kvs destinationKey :=
    getField_convertStartDate_ne kvs destinationKey (by decide)
  constructor
  · simp [loadEffect, hie, hdec, jsTruthy]
  · simp only [loadEffect, hie, hdec]
    rcases hdest with hd | ⟨s, hd⟩
    · simp [jsTruthy, jsTruthyOpt, hget, hd]
    · simp [jsTruthy, jsTruthyOpt, hget, hd]

theorem planParam_reset_and_autotrigger_witness :
    ("eyJkZXN0aW5hdGlvbiI6IkdvYSJ9".toList : List Char) ≠ [] ∧
    decodePlanJson ("eyJkZXN0aW5hdGlvbiI6IkdvYSJ9".toList) =
      some (JsVal.obj [(destinationKey, JsVal.str ("Goa".toList))]) ∧
    (loadEffect (some ("eyJkZXN0aW5hdGlvbiI6IkdvYSJ9".toList)) []).formReset =
      some (convertStartDate (JsVal.obj [(destinationKey, JsVal.str ("Goa".toList))])) ∧
    ((loadEffect (some ("eyJkZXN0aW5hdGlvbiI6IkdvYSJ9".toList)) []).triggered = true ↔
      ∃ s, assocGet [(destinationKey, JsVal.str ("Goa".toList))] destinationKey =
        some (JsVal.str s) ∧ s ≠ []) :=
  ⟨by decide, by rfl,
   (planParam_reset_and_autotrigger ("eyJkZXN0aW5hdGlvbiI6IkdvYSJ9".toList) []
     [(destinationKey, JsVal.str ("Goa".toList))] (by decide) (by rfl)
     (Or.inr ⟨"Goa".toList, rfl⟩)).1,
   (planParam_reset_and_autotrigger ("eyJkZXN0aW5hdGlvbiI6IkdvYSJ9".toList) []
     [(destinationKey, JsVal.str ("Goa".toList))] (by decide) (by rfl)
     (Or.inr ⟨"Goa".toList, rfl⟩)).2⟩

/-- C10 counterexample: the double-toggle identity fails as stated.  The
interests string `Food, x` is the `", "`-join of the single non-empty
entry list `["Food, x"]`, which does not contain the interest `Food`;
yet toggling `Food` twice yields `x, Food`, not the original string,
because `split(', ')` cuts inside the entry. -/
theorem toggleInterest_not_involutive_with_separator :
    (∀ e ∈ [("Food, x".toList)], e ≠ []) ∧
    joinSep [("Food, x".toList)] = "Food, x".toList ∧
    ("Food".toList) ∉ [("Food, x".toList)] ∧
    toggleInterest ("Food".toList)
        (toggleInterest ("Food".toList) ("Food, x".toList)) ≠ "Food, x".toList := by
  refine ⟨by decide, rfl, by decide, by decide⟩

/-- C10 amended: for interests strings that are `", "`-joins of entries
which are non-empty and do not themselves contain the separator `", "`
(as every string the interest badges build is), and an interest `i` of
the same shape not among the entries, applying `toggleInterest i` twice
returns the string to its original value: toggling on appends `i` at the
end, toggling off removes exactly `i` and preserves the order of the
remaining entries. -/
theorem toggleInterest_double_toggle (entries : List (List Char)) (i : List Char)
    (hne : ∀ e ∈ entries, e ≠ [])
    (hfree : ∀ e ∈ entries, sepFree e = true)
    (hifree : sepFree i = true) (hine : i ≠ []) (hnotin : i ∉ entries) :
    toggleInterest i (toggleInterest i (joinSep entries)) = joinSep entries := by
  have hfilterB : ∀ l : List (List Char), (∀ e ∈ l, e ≠ []) →
      l.filter (fun s => !s.isEmpty) = l := by
    intro l hl
    rw [List.filter_eq_self]
    intro a ha
    simp [hl a ha]
  cases entries with
  | nil =>
    have h1 : toggleInterest i (joinSep []) = i := by
      simp [joinSep, toggleInterest, splitSep, splitSepAux]
    rw [h1]
    have hsplit : splitSep i = [i] := by
      simpa using splitSepAux_sepFree i [] hifree
    simp [toggleInterest, hsplit, hfilterB [i] (by simpa using hine), joinSep]
  | cons e0 es =>
    have hsplit1 : splitSep (joinSep (e0 :: es)) = e0 :: es :=
      splitSep_joinSep (e0 :: es) (by simp) hfree
    have hcontains1 : (e0 :: es).contains i = false := by simp [hnotin]
    have h1 : toggleInterest i (joinSep (e0 :: es)) = joinSep ((e0 :: es) ++ [i]) := by
      simp only [toggleInterest, hsplit1, hfilterB (e0 :: es) hne, hcontains1,
        Bool.false_eq_true, if_false]
    rw [h1]
    have hsplit2 : splitSep (joinSep ((e0 :: es) ++ [i])) = (e0 :: es) ++ [i] := by
      apply splitSep_joinSep ((e0 :: es) ++ [i]) (by simp)
      intro p hp
      rcases List.mem_append.mp hp with hp | hp
      · exact hfree p hp
      · simp at hp; subst hp; exact hifree
    have hne2 : ∀ e ∈ (e0 :: es) ++ [i], e ≠ [] := by
      intro p hp
      rcases List.mem_append.mp hp with hp | hp
      · exact hne p hp
      · simp at hp; subst hp; exact hine
    have hcontains2 : ((e0 :: es) ++ [i]).contains i = true := by simp
    have hfilter3 : ((e0 :: es) ++ [i]).filter (fun s => s != i) = e0 :: es := by
      rw [List.filter_append]
      have hl : (e0 :: es).filter (fun s => s != i) = e0 :: es := by
        rw [List.filter_eq_self]
        intro a ha
        simp
        intro hcon
        subst hcon
        exact hnotin ha
      simp [hl]
    simp only [toggleInterest, hsplit2, hfilterB _ hne2, hcontains2, if_true, hfilter3]

theorem toggleInterest_double_toggle_witness :
    (∀ e ∈ [("Beaches".toList)], e ≠ []) ∧
    (∀ e ∈ [("Beaches".toList)], sepFree e = true) ∧
    sepFree ("Food".toList) = true ∧
    ("Food".toList : List Char) ≠ [] ∧
    ("Food".toList) ∉ [("Beaches".toList)] ∧
    toggleInterest ("Food".toList)
        (toggleInterest ("Food".toList) (joinSep [("Beaches".toList)])) =
      joinSep [("Beaches".toList)] :=
  ⟨by decide, by decide, by decide, by decide, by decide,
   toggleInterest_double_toggle [("Beaches".toList)] ("Food".toList)
     (by decide) (by decide) (by decide) (by decide) (by decide)⟩

theorem budgetOfChars_isSome_iff (s : List Char) :
    (budgetOfChars s).isSome = true ↔
      (s = "Low".toList ∨ s = "Medium".toList ∨ s = "Luxury".toList) := by
  by_cases h1 : s = ['L', 'o', 'w']
  · simp [budgetOfChars, h1]
  by_cases h2 : s = ['M', 'e', 'd', 'i', 'u', 'm']
  · simp [budgetOfChars, h1, h2]
  by_cases h3 : s = ['L', 'u', 'x', 'u', 'r', 'y']
  · simp [budgetOfChars, h1, h2, h3]
  simp [budgetOfChars, h1, h2, h3]

theorem paceOfChars_isSome_iff (s : List Char) :
    (paceOfChars s).isSome = true ↔
      (s = "Relaxed".toList ∨ s = "Balanced".toList ∨ s = "Intense".toList) := by
  by_cases h1 : s = ['R', 'e', 'l', 'a', 'x', 'e', 'd']
  · simp [paceOfChars, h1]
  by_cases h2 : s = ['B', 'a', 'l', 'a', 'n', 'c', 'e', 'd']
  · simp [paceOfChars, h1, h2]
  by_cases h3 : s = ['I', 'n', 't', 'e', 'n', 's', 'e']
  · simp [paceOfChars, h1, h2, h3]
  simp [paceOfChars, h1, h2, h3]

theorem zodRequiredString_isSome_iff (v : Option JsVal) :
    (zodRequiredString v).isSome = true ↔ ∃ s, v = some (JsVal.str s) := by
  cases v with
  | none => simp [zodRequiredString]
  | some x => cases x <;> simp [zodRequiredString]

theorem zodOptionalString_isSome_iff (v : Option JsVal) :
    (zodOptionalString v).isSome = true ↔ (v = none ∨ ∃ s, v = some (JsVal.str s)) := by
  cases v with
  | none => simp [zodOptionalString]
  | some x => cases x <;> simp [zodOptionalString]

theorem zodDays_isSome_iff (v : Option JsVal) :
    (zodDays v).isSome = true ↔
      (v = none ∨ ∃ n : Int, v = some (JsVal.num n) ∧ 1 ≤ n ∧ n ≤ 21) := by
  cases v with
  | none => simp [zodDays]
  | some x =>
    cases x with
    | num n =>
      by_cases hn : 1 ≤ n ∧ n ≤ 21
      · simp [zodDays, hn]
      · simp [zodDays, hn]
    | null => simp [zodDays]
    | bool b => simp [zodDays]
    | str s => simp [zodDays]
    | arr xs => simp [zodDays]
    | obj kvs => simp [zodDays]
    | date a => simp [zodDays]

theorem zodTravelers_isSome_iff (v : Option JsVal) :
    (zodTravelers v).isSome = true ↔
      (v = none ∨ ∃ n : Int, v = some (JsVal.num n) ∧ 1 ≤ n) := by
  cases v with
  | none => simp [zodTravelers]
  | some x =>
    cases x with
    | num n =>
      by_cases hn : 1 ≤ n
      · simp [zodTravelers, hn]
      · simp [zodTravelers, hn]
    | null => simp [zodTravelers]
    | bool b => simp [zodTravelers]
    | str s => simp [zodTravelers]
    | arr xs => simp [zodTravelers]
    | obj kvs => simp [zodTravelers]
    | date a => simp [zodTravelers]

theorem zodBudget_isSome_iff (v : Option JsVal) :
    (zodBudget v).isSome = true ↔
      (v = none ∨ v = some (JsVal.str ("Low".toList)) ∨
        v = some (JsVal.str ("Medium".toList)) ∨ v = some (JsVal.str ("Luxury".toList))) := by
  cases v with
  | none => simp [zodBudget]
  | some x =>
    cases x with
    | str s => simp [zodBudget, budgetOfChars_isSome_iff]
    | null => simp [zodBudget]
    | bool b => simp [zodBudget]
    | num n => simp [zodBudget]
    | arr xs => simp [zodBudget]
    | obj kvs => simp [zodBudget]
    | date a => simp [zodBudget]

theorem zodPace_isSome_iff (v : Option JsVal) :
    (zodPace v).isSome = true ↔
      (v = none ∨ v = some (JsVal.str ("Relaxed".toList)) ∨
        v = some (JsVal.str ("Balanced".toList)) ∨ v = some (JsVal.str ("Intense".toList))) := by
  cases v with
  | none => simp [zodPace]
  | some x =>
    cases x with
    | str s => simp [zodPace, paceOfChars_isSome_iff]
    | null => simp [zodPace]
    | bool b => simp [zodPace]
    | num n => simp [zodPace]
    | arr xs => simp [zodPace]
    | obj kvs => simp [zodPace]
    | date a => simp [zodPace]

/-- The input shapes the claim describes, written from its wording (the
spec side of the comparison): a flat record whose `destination`,
`startDate` and `interests` are strings; `days` absent or a number
between 1 and 21; `budget` absent or one of the three tiers; `travelers`
absent or a number at least 1; `pace` absent or one of the three paces;
and `mustInclude`, `avoid`, `notes` absent or strings. -/
def SpecInputShape (j : JsVal) : Prop :=
  ∃ kvs, j = JsVal.obj kvs ∧
    (∃ s, assocGet kvs destinationKey = some (JsVal.str s)) ∧
    (∃ s, assocGet kvs startDateKey = some (JsVal.str s)) ∧
    (∃ s, assocGet kvs interestsKey = some (JsVal.str s)) ∧
    (assocGet kvs daysKey = none ∨
      ∃ n : Int, assocGet kvs daysKey = some (JsVal.num n) ∧ 1 ≤ n ∧ n ≤ 21) ∧
    (assocGet kvs budgetKey = none ∨
      assocGet kvs budgetKey = some (JsVal.str ("Low".toList)) ∨
      assocGet kvs budgetKey = some (JsVal.str ("Medium".toList)) ∨
      assocGet kvs budgetKey = some (JsVal.str ("Luxury".toList))) ∧
    (assocGet kvs travelersKey = none ∨
      ∃ n : Int, assocGet kvs travelersKey = some (JsVal.num n) ∧ 1 ≤ n) ∧
    (assocGet kvs paceKey = none ∨
      assocGet kvs paceKey = some (JsVal.str ("Relaxed".toList)) ∨
      assocGet kvs paceKey = some (JsVal.str ("Balanced".toList)) ∨
      assocGet kvs paceKey = some (JsVal.str ("Intense".toList))) ∧
    (assocGet kvs mustIncludeKey = none ∨
      ∃ s, assocGet kvs mustIncludeKey = some (JsVal.str s)) ∧
    (assocGet kvs avoidKey = none ∨ ∃ s, assocGet kvs avoidKey = some (JsVal.str s)) ∧
    (assocGet kvs notesKey = none ∨ ∃ s, assocGet kvs notesKey = some (JsVal.str s))

theorem zodParse_peel (kvs : List (List Char × JsVal))
    (out : GeneratePersonalizedItineraryInput)
    (hout : zodParseItineraryInput (JsVal.obj kvs) = some out) :
    zodRequiredString (assocGet kvs destinationKey) = some out.destination ∧
    zodRequiredString (assocGet kvs startDateKey) = some out.startDate ∧
    zodDays (assocGet kvs daysKey) = some out.days ∧
    zodBudget (assocGet kvs budgetKey) = some out.budget ∧
    zodTravelers (assocGet kvs travelersKey) = some out.travelers ∧
    zodRequiredString (assocGet kvs interestsKey) = some out.interests ∧
    zodPace (assocGet kvs paceKey) = some out.pace ∧
    zodOptionalString (assocGet kvs mustIncludeKey) = some out.mustInclude ∧
    zodOptionalString (assocGet kvs avoidKey) = some out.avoid ∧
    zodOptionalString (assocGet kvs notesKey) = some out.notes := by
  simp only [zodParseItineraryInput] at hout
  rcases h1 : zodRequiredString (assocGet kvs destinationKey) with _ | d1
  · rw [h1] at hout; simp at hout
  rw [h1] at hout
  rcases h2 : zodRequiredString (assocGet kvs startDateKey) with _ | d2
  · rw [h2] at hout; simp at hout
  rw [h2] at hout
  rcases h3 : zodDays (assocGet kvs daysKey) with _ | d3
  · rw [h3] at hout; simp at hout
  rw [h3] at hout
  rcases h4 : zodBudget (assocGet kvs budgetKey) with _ | d4
  · rw [h4] at hout; simp at hout
  rw [h4] at hout
  rcases h5 : zodTravelers (assocGet kvs travelersKey) with _ | d5
  · rw [h5] at hout; simp at hout
  rw [h5] at hout
  rcases h6 : zodRequiredString (assocGet kvs interestsKey) with _ | d6
  · rw [h6] at hout; simp at hout
  rw [h6] at hout
  rcases h7 : zodPace (assocGet kvs paceKey) with _ | d7
  · rw [h7] at hout; simp at hout
  rw [h7] at hout
  rcases h8 : zodOptionalString (assocGet kvs mustIncludeKey) with _ | d8
  · rw [h8] at hout; simp at hout
  rw [h8] at hout
  rcases h9 : zodOptionalString (assocGet kvs avoidKey) with _ | d9
  · rw [h9] at hout; simp at hout
  rw [h9] at hout
  rcases h10 : zodOptionalString (assocGet kvs notesKey) with _ | d10
  · rw [h10] at hout; simp at hout
  rw [h10] at hout
  simp only [Option.some.injEq] at hout
  subst hout
  exact ⟨rfl, rfl, rfl, rfl, rfl, rfl, rfl, rfl, rfl, rfl⟩

/-- C4: the generative call's input schema accepts exactly the flat
records in which `destination`, `startDate` and `interests` are strings,
`days` is a number between 1 and 21 (defaulting to 3 when absent),
`budget` is one of Low/Medium/Luxury (defaulting to Medium), `travelers`
is a number at least 1 (defaulting to 2), `pace` is one of
Relaxed/Balanced/Intense (defaulting to Balanced), and `mustInclude`,
`avoid` and `notes` are optional strings; every other value is rejected
by validation. -/
theorem inputSchema_accepts_exactly (j : JsVal) :
    ((zodParseItineraryInput j).isSome = true ↔ SpecInputShape j) ∧
    (∀ out, zodParseItineraryInput j = some out →
      (getField j daysKey = none → out.days = 3) ∧
      (getField j budgetKey = none → out.budget = Budget.Medium) ∧
      (getField j travelersKey = none → out.travelers = 2) ∧
      (getField j paceKey = none → out.pace = Pace.Balanced)) := by
  cases j with
  | obj kvs =>
    constructor
    · constructor
      · intro h
        obtain ⟨out, hout⟩ := Option.isSome_iff_exists.mp h
        obtain ⟨h1, h2, h3, h4, h5, h6, h7, h8, h9, h10⟩ := zodParse_peel kvs out hout
        refine ⟨kvs, rfl, ?_, ?_, ?_, ?_, ?_, ?_, ?_, ?_, ?_, ?_⟩
        · exact (zodRequiredString_isSome_iff _).mp (by simp [h1])
        · exact (zodRequiredString_isSome_iff _).mp (by simp [h2])
        · exact (zodRequiredString_isSome_iff _).mp (by simp [h6])
        · exact (zodDays_isSome_iff _).mp (by simp [h3])
        · exact (zodBudget_isSome_iff _).mp (by simp [h4])
        · exact (zodTravelers_isSome_iff _).mp (by simp [h5])
        · exact (zodPace_isSome_iff _).mp (by simp [h7])
        · exact (zodOptionalString_isSome_iff _).mp (by simp [h8])
        · exact (zodOptionalString_isSome_iff _).mp (by simp [h9])
        · exact (zodOptionalString_isSome_iff _).mp (by simp [h10])
      · rintro ⟨kvs', hkv, hs⟩
        injection hkv with hkv
        subst hkv
        obtain ⟨⟨s1, hs1⟩, ⟨s2, hs2⟩, ⟨s3, hs3⟩, hdays, hbud, htrav, hpace, hmi, hav, hno⟩ := hs
        have z1 : zodRequiredString (assocGet kvs destinationKey) = some s1 := by
          rw [hs1]
          rfl
        have z2 : zodRequiredString (assocGet kvs startDateKey) = some s2 := by
          rw [hs2]
          rfl
        have z6 : zodRequiredString (assocGet kvs interestsKey) = some s3 := by
          rw [hs3]
          rfl
        obtain ⟨x3, hx3⟩ := Option.isSome_iff_exists.mp ((zodDays_isSome_iff _).mpr hdays)
        obtain ⟨x4, hx4⟩ := Option.isSome_iff_exists.mp ((zodBudget_isSome_iff _).mpr hbud)
        obtain ⟨x5, hx5⟩ := Option.isSome_iff_exists.mp ((zodTravelers_isSome_iff _).mpr htrav)
        obtain ⟨x7, hx7⟩ := Option.isSome_iff_exists.mp ((zodPace_isSome_iff _).mpr hpace)
        obtain ⟨x8, hx8⟩ :=
          Option.isSome_iff_exists.mp ((zodOptionalString_isSome_iff _).mpr hmi)
        obtain ⟨x9, hx9⟩ :=
          Option.isSome_iff_exists.mp ((zodOptionalString_isSome_iff _).mpr hav)
        obtain ⟨x10, hx10⟩ :=
          Option.isSome_iff_exists.mp ((zodOptionalString_isSome_iff _).mpr hno)
        simp [zodParseItineraryInput, z1, z2, z6, hx3, hx4, hx5, hx7, hx8, hx9, hx10]
    · intro out hout
      obtain ⟨h1, h2, h3, h4, h5, h6, h7, h8, h9, h10⟩ := zodParse_peel kvs out hout
      refine ⟨?_, ?_, ?_, ?_⟩
      · intro hgf
        rw [show getField (JsVal.obj kvs) daysKey = assocGet kvs daysKey from rfl] at hgf
        rw [hgf] at h3
        simp [zodDays] at h3
        exact h3.symm
      · intro hgf
        rw [show getField (JsVal.obj kvs) budgetKey = assocGet kvs budgetKey from rfl] at hgf
        rw [hgf] at h4
        simp [zodBudget] at h4
        exact h4.symm
      · intro hgf
        rw [show getField (JsVal.obj kvs) travelersKey = assocGet kvs travelersKey from
          rfl] at hgf
        rw [hgf] at h5
        simp [zodTravelers] at h5
        exact h5.symm
      · intro hgf
        rw [show getField (JsVal.obj kvs) paceKey = assocGet kvs paceKey from rfl] at hgf
        rw [hgf] at h7
        simp [zodPace] at h7
        exact h7.symm
  | null =>
    refine ⟨⟨fun h => by simp [zodParseItineraryInput] at h, ?_⟩,
      fun out hout => by simp [zodParseItineraryInput] at hout⟩
    rintro ⟨kvs, hkv, _⟩
    exact JsVal.noConfusion hkv
  | bool b =>
    refine ⟨⟨fun h => by simp [zodParseItineraryInput] at h, ?_⟩,
      fun out hout => by simp [zodParseItineraryInput] at hout⟩
    rintro ⟨kvs, hkv, _⟩
    exact JsVal.noConfusion hkv
  | num n =>
    refine ⟨⟨fun h => by simp [zodParseItineraryInput] at h, ?_⟩,
      fun out hout => by simp [zodParseItineraryInput] at hout⟩
    rintro ⟨kvs, hkv, _⟩
    exact JsVal.noConfusion hkv
  | str s =>
    refine ⟨⟨fun h => by simp [zodParseItineraryInput] at h, ?_⟩,
      fun out hout => by simp [zodParseItineraryInput] at hout⟩
    rintro ⟨kvs, hkv, _⟩
    exact JsVal.noConfusion hkv
  | arr xs =>
    refine ⟨⟨fun h => by simp [zodParseItineraryInput] at h, ?_⟩,
      fun out hout => by simp [zodParseItineraryInput] at hout⟩
    rintro ⟨kvs, hkv, _⟩
    exact JsVal.noConfusion hkv
  | date a =>
    refine ⟨⟨fun h => by simp [zodParseItineraryInput] at h, ?_⟩,
      fun out hout => by simp [zodParseItineraryInput] at hout⟩
    rintro ⟨kvs, hkv, _⟩
    exact JsVal.noConfusion hkv

def c4SampleInput : JsVal :=
  JsVal.obj [(destinationKey, JsVal.str ("Goa".toList)),
             (startDateKey, JsVal.str ("2025-06-01".toList)),
             (interestsKey, JsVal.str ("Food".toList))]

def c4SampleOutput : GeneratePersonalizedItineraryInput :=
  GeneratePersonalizedItineraryInput.mk ("Goa".toList) ("2025-06-01".toList) 3
    Budget.Medium 2 ("Food".toList) Pace.Balanced none none none

theorem inputSchema_accepts_exactly_witness :
    ((zodParseItineraryInput c4SampleInput).isSome = true ↔ SpecInputShape c4SampleInput) ∧
    zodParseItineraryInput c4SampleInput = some c4SampleOutput ∧
    getField c4SampleInput daysKey = none ∧
    c4SampleOutput.days = 3 ∧ c4SampleOutput.budget = Budget.Medium ∧
    c4SampleOutput.travelers = 2 ∧ c4SampleOutput.pace = Pace.Balanced :=
  ⟨(inputSchema_accepts_exactly c4SampleInput).1, rfl, rfl,
   ((inputSchema_accepts_exactly c4SampleInput).2 c4SampleOutput rfl).1 rfl,
   ((inputSchema_accepts_exactly c4SampleInput).2 c4SampleOutput rfl).2.1 rfl,
   ((inputSchema_accepts_exactly c4SampleInput).2 c4SampleOutput rfl).2.2.1 rfl,
   ((inputSchema_accepts_exactly c4SampleInput).2 c4SampleOutput rfl).2.2.2 rfl⟩

def nonLatin1Prefs : Prefs :=
  Prefs.mk ['€'] (DateRec.mk 2025 6 1 0 0 0 0) 3 Budget.Medium 2
    ("Food".toList) Pace.Balanced [] [] []

/-- C2 counterexample: the share-link round trip is not the identity on
every preferences record the form can produce.  For a record whose
destination is the euro sign (code point U+20AC, above U+00FF), `btoa`
throws its `InvalidCharacterError`, so the encode path yields no link at
all and the round trip does not reproduce the record. -/
theorem sharePlan_roundTrip_fails_nonLatin1 :
    handleShareEncode nonLatin1Prefs = none ∧
    (handleShareEncode nonLatin1Prefs).bind decodePlanPrefs ≠ some nonLatin1Prefs := by
  have henc : handleShareEncode nonLatin1Prefs = none := by
    set_option maxRecDepth 4000 in decide
  refine ⟨henc, ?_⟩
  rw [henc]
  simp [Option.bind]

/-- C2 amended: for every preferences record whose serialized JSON text
contains only Latin-1 characters (all code points at most 255) and whose
start date has the printable component bounds every calendar date
satisfies, the shareable-link encode path (`JSON.stringify` then `btoa`)
composed with the load-time decode path (`atob`, `JSON.parse`, then
`new Date` on the `startDate` field) reproduces the original record. -/
theorem sharePlan_roundTrip_latin1 (p : Prefs) (hd : p.startDate.printable)
    (hlatin : ∀ c ∈ stringifyPrefs p, c.toNat ≤ 255) :
    (handleShareEncode p).bind decodePlanPrefs = some p := by
  have hb := atob_btoa (stringifyPrefs p).length (stringifyPrefs p) le_rfl hlatin
  cases hbt : btoa (stringifyPrefs p) with
  | none => rw [hbt] at hb; simp [Option.bind] at hb
  | some link =>
    rw [hbt] at hb
    simp only [Option.bind] at hb
    simp only [handleShareEncode, hbt, Option.bind]
    simp only [decodePlanPrefs, decodePlanJson, hb, jsonParse_stringifyPrefs]
    exact extractPrefs_convert_prefsJson p hd

set_option maxRecDepth 40000 in
theorem sharePlan_roundTrip_latin1_witness :
    samplePrefs.startDate.printable ∧
    (∀ c ∈ stringifyPrefs samplePrefs, c.toNat ≤ 255) ∧
    (handleShareEncode samplePrefs).bind decodePlanPrefs = some samplePrefs :=
  ⟨by decide, by decide,
   sharePlan_roundTrip_latin1 samplePrefs (by decide) (by decide)⟩

/-- C5: every submission of the form first saves the submitted
preferences record (serialized by `JSON.stringify`) under the single
browser-local key `last_itinerary_input`; and on a later visit with no
`plan` query parameter, a visit that finds that saved record under the
key parses it, converts its `startDate` back to a `Date`, and
repopulates the form with the original record. -/
theorem persistence_saves_and_restores :
    (∀ s d, s.loading = false →
      storeGet (uiStep s (UiEvent.submit d)).storage lastItineraryInputKey =
        some (stringifyPrefs d)) ∧
    (∀ storage d, d.startDate.printable →
      storeGet storage lastItineraryInputKey = some (stringifyPrefs d) →
      (loadEffect none storage).formReset = some (convertStartDate (prefsJson d)) ∧
      Option.bind (loadEffect none storage).formReset extractPrefs = some d) := by
  constructor
  · intro s d hl
    simp only [uiStep, hl, Bool.false_eq_true, if_false]
    exact storeGet_storeSet s.storage lastItineraryInputKey (stringifyPrefs d)
  · intro storage d hd hget
    have hne : (stringifyPrefs d).isEmpty = false := by
      simp [stringifyPrefs]
    have ht : jsTruthy (prefsJson d) = true := rfl
    have hreset : (loadEffect none storage).formReset =
        some (convertStartDate (prefsJson d)) := by
      simp only [loadEffect, readSavedData, hget, hne, Bool.false_eq_true, if_false,
        jsonParse_stringifyPrefs, ht, if_true]
    refine ⟨hreset, ?_⟩
    rw [hreset]
    simp only [Option.bind]
    exact extractPrefs_convert_prefsJson d hd

theorem persistence_saves_and_restores_witness :
    initUiState.loading = false ∧
    storeGet (uiStep initUiState (UiEvent.submit samplePrefs)).storage
        lastItineraryInputKey = some (stringifyPrefs samplePrefs) ∧
    samplePrefs.startDate.printable ∧
    storeGet [(lastItineraryInputKey, stringifyPrefs samplePrefs)] lastItineraryInputKey =
      some (stringifyPrefs samplePrefs) ∧
    Option.bind
        (loadEffect none [(lastItineraryInputKey, stringifyPrefs samplePrefs)]).formReset
        extractPrefs = some samplePrefs :=
  ⟨rfl,
   persistence_saves_and_restores.1 initUiState samplePrefs rfl,
   by decide, rfl,
   (persistence_saves_and_restores.2 [(lastItineraryInputKey, stringifyPrefs samplePrefs)]
     samplePrefs (by decide) rfl).2⟩
